import Mathlib

/-! VLayout: vertical panel layout with draggable splitters.

A shallow embedding of `src/js/common/vlayout.js`.

* Pixel quantities (heights, pointer coordinates) are exact rationals.
* A panel object is identified by its position in `this.panels`; the record read at
  that position is the state of the object.  `_resize` only writes heights in its
  final batch, so the record read during a walk is the state the code sees.
* A `while (cursor = this.nextPanel(cursor))` loop is a recursion on an explicit
  fuel; running out of fuel is reported as `Err.outOfFuel`.
* Dereferencing `undefined` is reported as `Err.typeError`.
-/

namespace VLayout

/-- Ways a call can fail to produce a value. -/
inductive Err where
  | typeError
  | outOfFuel
  deriving DecidableEq, Repr

/-- Panel state read by the layout: `panel.index`, `panel.options.minHeight`,
the current height, the splitter flag and `panel.options.autoHeight`. -/
structure VPanel where
  index : Int
  minHeight : ℚ
  height : ℚ
  splitter : Bool
  autoHeight : Bool
  deriving DecidableEq, Repr

namespace VPanel

/-- Modelled from the spec: `vpanel.js` is not among the sources; `getHeight()` returns
the panel's current pixel height. -/
def getHeight (p : VPanel) : ℚ := p.height

/-- Modelled from the spec: `vpanel.js` is not among the sources; `setHeight(null, h)`
sets the panel's height to `h`. -/
def setHeight (p : VPanel) (h : ℚ) : VPanel := { p with height := h }

/-- Modelled from the spec: `vpanel.js` is not among the sources; `isSplitter()` tells
whether the panel is a splitter. -/
def isSplitter (p : VPanel) : Bool := p.splitter

/-- Modelled from the spec: `vpanel.js` is not among the sources; the growth plan
`getResizeInfoByGrowth(delta)` returns `[newHeight, height - newHeight]` with
`newHeight = max(minHeight, height + delta)`. -/
def getResizeInfoByGrowth (p : VPanel) (growth : ℚ) : ℚ × ℚ :=
  let resizeTo := max p.minHeight (p.getHeight + growth)
  (resizeTo, p.getHeight - resizeTo)

end VPanel

/-- Modelled from the spec: `common.js` is not among the sources; `common.limit(v, [lo], [hi])`
is the plain two-sided range limit of `v` into `[lo, hi]`. -/
def limit (value lo hi : ℚ) : ℚ := min (max value lo) hi

/-- A panel reference: the position in `this.panels` together with the record there. -/
abbrev Cursor := Nat × VPanel

/-- The array read `this.panels[i]` for a JavaScript integer `i`; `none` is `undefined`. -/
def panelAt (panels : List VPanel) (i : Int) : Option Cursor :=
  if 0 ≤ i then (panels[i.toNat]?).map (fun p => (i.toNat, p)) else none

/-- `VLayout.prototype.nextPanel`: `this.panels[panel.index + 1]`. -/
def nextPanel (panels : List VPanel) (panel : Cursor) : Option Cursor :=
  panelAt panels (panel.2.index + 1)

/-- `VLayout.prototype.prevPanel`: `this.panels[panel.index - 1]`. -/
def prevPanel (panels : List VPanel) (panel : Cursor) : Option Cursor :=
  panelAt panels (panel.2.index - 1)

/-- The call `panel.setHeight(null, h)` on the panel object at position `k`. -/
def setHeightAt (panels : List VPanel) (k : Nat) (h : ℚ) : List VPanel :=
  match panels[k]? with
  | some p => panels.set k (p.setHeight h)
  | none => panels

/-- The final loop of `_resize`:
`util.forEach(resizeMap, function(pair) { pair[0].setHeight(null, pair[1]); })`. -/
def applyResizeMap (panels : List VPanel) (resizeMap : List (Nat × ℚ)) : List VPanel :=
  resizeMap.foldl (fun acc pair => setHeightAt acc pair.1 pair.2) panels

/-- The `while (cursor = this[forwardMethod](cursor))` loop of `_resize`.  One unit of
fuel is spent on each evaluation of the loop condition. -/
def resizeLoop (panels : List VPanel) (toDown : Bool) :
    Nat → Cursor → ℚ → List (Nat × ℚ) → Except Err (List (Nat × ℚ))
  | 0, _, _, _ => .error .outOfFuel
  | fuel + 1, cursor, resizedHeight, resizeMap =>
    match (if toDown then nextPanel panels cursor else prevPanel panels cursor) with
    | none => .ok resizeMap
    | some cursor =>
      if cursor.2.isSplitter then
        resizeLoop panels toDown fuel cursor resizedHeight resizeMap
      else
        let resizeInfo := cursor.2.getResizeInfoByGrowth (-resizedHeight)
        let resizeMap := resizeMap ++ [(cursor.1, resizeInfo.1)]
        let resizedHeight := resizedHeight - resizeInfo.2
        if resizedHeight < 0 then .ok resizeMap
        else resizeLoop panels toDown fuel cursor resizedHeight resizeMap

/-- `VLayout.prototype._resize(splPanel, startY, mouseY)`; `splPanel` is the position of
the splitter panel in `this.panels`. -/
def _resize (fuel : Nat) (panels : List VPanel) (splPanel : Nat) (startY mouseY : ℚ) :
    Except Err (List VPanel) :=
  match panels[splPanel]? with
  | none => .error .typeError
  | some spl =>
    let diffY := startY - mouseY
    let resizedHeight := |diffY|
    let toDown := decide (mouseY > startY)
    match (if toDown then prevPanel panels (splPanel, spl)
           else nextPanel panels (splPanel, spl)) with
    | none => .error .typeError
    | some cursor =>
      let resizeInfo := cursor.2.getResizeInfoByGrowth resizedHeight
      match resizeLoop panels toDown fuel cursor resizedHeight [(cursor.1, resizeInfo.1)] with
      | .error e => .error e
      | .ok resizeMap => .ok (applyResizeMap panels resizeMap)

/-- The local `func` of `_getMouseYAdditionalLimit`: a splitter reserves its height,
any other panel its `minHeight`. -/
def reserveOf (panel : VPanel) : ℚ :=
  if panel.isSplitter then panel.getHeight else panel.minHeight

/-- The loops `while (cursor = this.prevPanel(cursor)) { upper += func(cursor); }` and
`while (cursor = this.nextPanel(cursor)) { below += func(cursor); }`. -/
def reserveLoop (panels : List VPanel) (down : Bool) : Nat → Cursor → ℚ → Except Err ℚ
  | 0, _, _ => .error .outOfFuel
  | fuel + 1, cursor, acc =>
    match (if down then nextPanel panels cursor else prevPanel panels cursor) with
    | none => .ok acc
    | some cursor => reserveLoop panels down fuel cursor (acc + reserveOf cursor.2)

/-- `VLayout.prototype._getMouseYAdditionalLimit(splPanel)`: `[upper, below]`. -/
def _getMouseYAdditionalLimit (fuel : Nat) (panels : List VPanel) (splPanel : Nat) :
    Except Err (ℚ × ℚ) :=
  match panels[splPanel]? with
  | none => .error .typeError
  | some spl =>
    match reserveLoop panels false fuel (splPanel, spl) 0 with
    | .error e => .error e
    | .ok upper =>
      match reserveLoop panels true fuel (splPanel, spl) 0 with
      | .error e => .error e
      | .ok below => .ok (upper, below)

/-- The fields of `this._dragData` that enter the arithmetic. -/
structure DragData where
  splPanel : Nat
  splOffsetY : ℚ
  startY : ℚ
  minY : ℚ
  maxY : ℚ
  deriving DecidableEq, Repr

/-- `VLayout.prototype._onDragStart`: `splIndex` is the `panelIndex` datum of the pressed
element, `splOffsetY` the pointer position inside the splitter, `mouseY` the pointer
position inside the container, `viewHeight` is `this.getViewBound().height`. -/
def _onDragStart (panels : List VPanel) (viewHeight : ℚ) (splIndex : Nat)
    (splOffsetY mouseY : ℚ) : Except Err DragData :=
  match panels[splIndex]? with
  | none => .error .typeError
  | some splPanel =>
    let splHeight := splPanel.getHeight
    .ok { splPanel := splIndex
          splOffsetY := splOffsetY
          startY := mouseY - splOffsetY
          minY := 0
          maxY := viewHeight - splHeight }

/-- `VLayout.prototype._onDrag`: the guide position for pointer position `mouseY`. -/
def _onDrag (dragData : DragData) (mouseY : ℚ) : ℚ :=
  limit (mouseY - dragData.splOffsetY) dragData.minY dragData.maxY

/-- The `mouseY` that `_onDragEnd` computes from `asideMinMax` and the pointer position. -/
def releaseY (dragData : DragData) (asideMinMax : ℚ × ℚ) (mouseY : ℚ) : ℚ :=
  limit (mouseY - dragData.splOffsetY) (dragData.minY + asideMinMax.1)
    (dragData.maxY - asideMinMax.2)

/-- `VLayout.prototype._onDragEnd`: the panels after the release at pointer position
`mouseY`. -/
def _onDragEnd (fuel : Nat) (panels : List VPanel) (dragData : DragData) (mouseY : ℚ) :
    Except Err (List VPanel) :=
  match _getMouseYAdditionalLimit fuel panels dragData.splPanel with
  | .error e => .error e
  | .ok asideMinMax =>
    _resize fuel panels dragData.splPanel dragData.startY (releaseY dragData asideMinMax mouseY)

/-- The first loop of `refresh`, from position `k` on: auto-height panels are pushed to
`panelToFillHeight`, the heights of the others are added to `usedHeight`. -/
def refreshScan : List VPanel → Nat → List Nat × ℚ → List Nat × ℚ
  | [], _, acc => acc
  | panel :: rest, k, (panelToFillHeight, usedHeight) =>
    if panel.autoHeight then refreshScan rest (k + 1) (panelToFillHeight ++ [k], usedHeight)
    else refreshScan rest (k + 1) (panelToFillHeight, usedHeight + panel.getHeight)

/-- `VLayout.prototype.refresh`, with `viewHeight` for `this.getViewBound().height`. -/
def refresh (panels : List VPanel) (viewHeight : ℚ) : List VPanel :=
  let scan := refreshScan panels 0 ([], 0)
  let panelToFillHeight := scan.1
  let usedHeight := scan.2
  let remainHeight := (viewHeight - usedHeight) / (panelToFillHeight.length : ℚ)
  panelToFillHeight.foldl (fun acc k => setHeightAt acc k remainHeight) panels

/-! ## Vocabulary of the statements -/

/-- Every panel's `index` is its position in `this.panels`. -/
def WellIndexed (panels : List VPanel) : Prop :=
  ∀ i : Fin panels.length, (panels.get i).index = ((i : Nat) : Int)

instance (panels : List VPanel) : Decidable (WellIndexed panels) :=
  inferInstanceAs (Decidable (∀ i : Fin panels.length, (panels.get i).index = ((i : Nat) : Int)))

/-- Every panel's height is at least its `minHeight`. -/
def MinRespected (panels : List VPanel) : Prop :=
  ∀ p ∈ panels, p.minHeight ≤ p.height

/-- Sum of the heights of a list of panels. -/
def sumHeights (panels : List VPanel) : ℚ := (panels.map VPanel.getHeight).sum



/-- Visiting order of a walk: `visit` lists the cursors that repeated application of
`step` yields from `cursor`, until `step` returns `undefined`. -/
inductive Chain (step : Cursor → Option Cursor) : Cursor → List Cursor → Prop where
  | done {cursor : Cursor} : step cursor = none → Chain step cursor []
  | more {cursor next : Cursor} {rest : List Cursor} :
      step cursor = some next → Chain step next rest → Chain step cursor (next :: rest)

/-- The resize plan that the forward walk of `_resize` records over a visiting order. -/
def planPairs : ℚ → List Cursor → List (Nat × ℚ)
  | _, [] => []
  | r, c :: cs =>
    if c.2.isSplitter then planPairs r cs
    else
      let info := c.2.getResizeInfoByGrowth (-r)
      (c.1, info.1) :: (if r - info.2 < 0 then [] else planPairs (r - info.2) cs)

/-- The panels of a visiting order after the resize plan has been applied to them. -/
def cascade : ℚ → List VPanel → List VPanel
  | _, [] => []
  | r, p :: rest =>
    if p.isSplitter then p :: cascade r rest
    else
      let info := p.getResizeInfoByGrowth (-r)
      p.setHeight info.1 :: (if r - info.2 < 0 then rest else cascade (r - info.2) rest)

/-- Shrink capacity of a list of panels: the sum of `height - minHeight` over its
non-splitter panels. -/
def capacity (panels : List VPanel) : ℚ :=
  ((panels.filter (fun p => !p.isSplitter)).map (fun p => p.height - p.minHeight)).sum

/-- The cascading shrink in the words of the specification: over the non-splitter panels
`q1..qk` in walk order, `qi` ends at `max(minHeight_i, h_i - r_i)` with `r_1 = d` and
`r_(i+1) = r_i - (h_i - newHeight_i)`. -/
def cascadeHeights : ℚ → List VPanel → List ℚ
  | _, [] => []
  | r, q :: qs =>
    let newHeight := max q.minHeight (q.height - r)
    newHeight :: cascadeHeights (r - (q.height - newHeight)) qs

/-- The non-splitter panels on the shrinking side of the splitter at position `s`, in walk
order: those after it (top to bottom) when dragging down, those before it (bottom to top)
otherwise. -/
def shrinkSide (panels : List VPanel) (s : Nat) (toDown : Bool) : List VPanel :=
  (if toDown then panels.drop (s + 1) else (panels.take s).reverse).filter
    (fun p => !p.isSplitter)

/-- Everything of a panel but its height. -/
def frame (p : VPanel) : Int × ℚ × Bool × Bool := (p.index, p.minHeight, p.splitter, p.autoHeight)

/-- The stack of the specification's cascade example after `refresh` in a viewport of
height 300: panel, splitter, panel, splitter, panel. -/
def exampleStack : List VPanel :=
  [⟨0, 20, 80, false, true⟩, ⟨1, 0, 10, true, false⟩, ⟨2, 20, 100, false, false⟩,
   ⟨3, 0, 10, true, false⟩, ⟨4, 20, 100, false, false⟩]

/-- Positions of the auto-height panels of a list whose head sits at position `k`. -/
def autoPositions : Nat → List VPanel → List Nat
  | _, [] => []
  | k, p :: rest => if p.autoHeight then k :: autoPositions (k + 1) rest
                    else autoPositions (k + 1) rest

/-- Sum of the heights of the panels that are not auto-height. -/
def usedHeight (panels : List VPanel) : ℚ :=
  ((panels.filter (fun p => !p.autoHeight)).map (fun p => p.height)).sum

/-- Number of auto-height panels. -/
def autoCount (panels : List VPanel) : Nat := (panels.filter (fun p => p.autoHeight)).length

/-- The share that `refresh` hands to each auto-height panel, in the words of the
specification: `(viewportHeight − sum(non-auto heights)) / count(auto panels)`. -/
def autoShare (panels : List VPanel) (viewHeight : ℚ) : ℚ :=
  (viewHeight - usedHeight panels) / (autoCount panels : ℚ)

/-- The stack of the specification's cascade example before `refresh`. -/
def exampleOptions : List VPanel :=
  [⟨0, 20, 0, false, true⟩, ⟨1, 0, 10, true, false⟩, ⟨2, 20, 100, false, false⟩,
   ⟨3, 0, 10, true, false⟩, ⟨4, 20, 100, false, false⟩]

/-- Every height recorded in a resize plan is at least the `minHeight` of the panel it
is recorded for. -/
def PlanOk (panels : List VPanel) (resizeMap : List (Nat × ℚ)) : Prop :=
  ∀ pair ∈ resizeMap, ∀ p, panels[pair.1]? = some p → p.minHeight ≤ pair.2

/-- The stack of the specification's bound example: viewport height 200, a splitter of
height 10 between two panels of `minHeight` 20. -/
def boundStack : List VPanel :=
  [⟨0, 20, 95, false, false⟩, ⟨1, 0, 10, true, false⟩, ⟨2, 20, 95, false, false⟩]

/-- The example stack after `refresh` in a viewport of height 230: the fixed panels use
220, so the auto-height panel sits at height 10, below its `minHeight` of 20. -/
def lowStack : List VPanel :=
  [⟨0, 20, 10, false, true⟩, ⟨1, 0, 10, true, false⟩, ⟨2, 20, 100, false, false⟩,
   ⟨3, 0, 10, true, false⟩, ⟨4, 20, 100, false, false⟩]

/-- A stack that starts with a splitter: splitter of height 10, then a panel of height 100
and `minHeight` 20. -/
def splitterFirstStack : List VPanel :=
  [⟨0, 0, 10, true, false⟩, ⟨1, 20, 100, false, false⟩]

/-- A stack with two adjacent splitters between two panels. -/
def adjacentSplitterStack : List VPanel :=
  [⟨0, 20, 100, false, false⟩, ⟨1, 0, 10, true, false⟩, ⟨2, 0, 10, true, false⟩,
   ⟨3, 20, 100, false, false⟩]

/-- The options object handed to `addPanel`, with the defaults of the `PanelOptions`
typedef applied; `index` is the object's own `index` property if it carries one (the
typedef lists none). -/
structure PanelOptions where
  index : Option Int
  minHeight : ℚ
  height : ℚ
  splitter : Bool
  autoHeight : Bool
  deriving DecidableEq, Repr

/-- `util.extend({index: index}, options)`: the properties of `options` are copied over
the object `{index: index}`, so an `index` that `options` carries replaces the position. -/
def extendIndex (index : Int) (options : PanelOptions) : PanelOptions :=
  { options with index := some (options.index.getD index) }

/-- Modelled from the spec: `vpanel.js` is not among the sources; `new VPanel(options, element)`
creates a panel whose `index`, `minHeight`, height, splitter flag and `autoHeight` are those
of its options (index 0 when the options carry none). -/
def VPanel.create (options : PanelOptions) : VPanel :=
  { index := options.index.getD 0
    minHeight := options.minHeight
    height := options.height
    splitter := options.splitter
    autoHeight := options.autoHeight }

/-- `VLayout.prototype.addPanel`: the new panel is pushed to `this.panels`. -/
def addPanel (panels : List VPanel) (options : PanelOptions) : List VPanel :=
  let index := panels.length
  let options := extendIndex (index : Int) options
  panels ++ [VPanel.create options]

/-- `VLayout.prototype.addPanels`: `addPanel` for each option of the list, in order. -/
def addPanels (panels : List VPanel) (options : List PanelOptions) : List VPanel :=
  options.foldl addPanel panels

/-- A call that adds panels to a layout. -/
inductive AddCall where
  | one (options : PanelOptions)
  | many (options : List PanelOptions)

/-- The panel options that a call hands over. -/
def AddCall.options : AddCall → List PanelOptions
  | .one o => [o]
  | .many os => os

/-- The panels of a layout after a sequence of `addPanel` / `addPanels` calls. -/
def runAddCalls (panels : List VPanel) (calls : List AddCall) : List VPanel :=
  calls.foldl (fun acc call =>
    match call with
    | .one o => addPanel acc o
    | .many os => addPanels acc os) panels

end VLayout

namespace VLayout

/-! ## Array reads and neighbour lookups -/

theorem getElem?_mid (pre post : List VPanel) (p : VPanel) :
    (pre ++ p :: post)[pre.length]? = some p := by
  rw [List.getElem?_append_right (le_refl _)]
  simp

theorem WellIndexed.index_eq {panels : List VPanel} (hw : WellIndexed panels) {c : Nat}
    {p : VPanel} (h : panels[c]? = some p) : p.index = (c : Int) := by
  obtain ⟨hc, rfl⟩ := List.getElem?_eq_some.mp h
  exact hw ⟨c, hc⟩

theorem panelAt_natCast (panels : List VPanel) (k : Nat) :
    panelAt panels (k : Int) = (panels[k]?).map (fun p => (k, p)) := by
  simp [panelAt]

theorem panelAt_neg (panels : List VPanel) {i : Int} (h : i < 0) : panelAt panels i = none := by
  simp [panelAt, not_le.mpr h]

theorem nextPanel_eq {panels : List VPanel} (hw : WellIndexed panels) {c : Nat} {p : VPanel}
    (h : panels[c]? = some p) :
    nextPanel panels (c, p) = (panels[c + 1]?).map (fun q => (c + 1, q)) := by
  unfold nextPanel
  rw [show (c, p).2.index + 1 = ((c + 1 : Nat) : Int) by simp [hw.index_eq h]]
  exact panelAt_natCast panels (c + 1)

theorem prevPanel_zero {panels : List VPanel} (hw : WellIndexed panels) {p : VPanel}
    (h : panels[0]? = some p) : prevPanel panels (0, p) = none := by
  unfold prevPanel
  apply panelAt_neg
  simp [hw.index_eq h]

theorem prevPanel_succ {panels : List VPanel} (hw : WellIndexed panels) {c : Nat} {p : VPanel}
    (h : panels[c + 1]? = some p) :
    prevPanel panels (c + 1, p) = (panels[c]?).map (fun q => (c, q)) := by
  unfold prevPanel
  rw [show (c + 1, p).2.index - 1 = ((c : Nat) : Int) by simp [hw.index_eq h]]
  exact panelAt_natCast panels c

/-! ## The walks visit the positions after, respectively before, the cursor -/

theorem chain_next {panels : List VPanel} (hw : WellIndexed panels) :
    ∀ (post pre : List VPanel) (p : VPanel), panels = pre ++ p :: post →
      Chain (nextPanel panels) (pre.length, p) (post.enumFrom (pre.length + 1)) := by
  intro post
  induction post with
  | nil =>
    intro pre p hps
    have h : panels[pre.length]? = some p := by rw [hps]; exact getElem?_mid pre _ p
    refine Chain.done ?_
    rw [nextPanel_eq hw h]
    simp [hps]
  | cons q post ih =>
    intro pre p hps
    have h : panels[pre.length]? = some p := by rw [hps]; exact getElem?_mid pre _ p
    have h1 : panels[pre.length + 1]? = some q := by
      rw [hps, List.getElem?_append_right (by omega)]
      simp
    have hstep : nextPanel panels (pre.length, p) = some (pre.length + 1, q) := by
      rw [nextPanel_eq hw h, h1]; rfl
    have := ih (pre ++ [p]) q (by simp [hps])
    simp only [List.length_append, List.length_singleton] at this
    exact Chain.more hstep this

theorem chain_prev {panels : List VPanel} (hw : WellIndexed panels) :
    ∀ (pre post : List VPanel) (p : VPanel), panels = pre ++ p :: post →
      Chain (prevPanel panels) (pre.length, p) (pre.enum.reverse) := by
  intro pre
  induction pre using List.reverseRecOn with
  | nil =>
    intro post p hps
    have h : panels[0]? = some p := by simp [hps]
    exact Chain.done (prevPanel_zero hw h)
  | append_singleton pre q ih =>
    intro post p hps
    have h : panels[pre.length + 1]? = some p := by
      rw [hps]
      rw [List.getElem?_append_right (by simp)]
      simp
    have h0 : panels[pre.length]? = some q := by
      rw [hps, List.append_assoc, List.getElem?_append_right (by omega)]
      simp
    have hstep : prevPanel panels (pre.length + 1, p) = some (pre.length, q) := by
      rw [prevPanel_succ hw h, h0]; rfl
    have := ih (p :: post) q (by simp [hps])
    simp only [List.length_append, List.length_singleton, List.enum_append, List.reverse_append,
      List.enumFrom_cons, List.enumFrom_nil, List.reverse_cons, List.reverse_nil, List.nil_append,
      List.singleton_append]
    exact Chain.more hstep this

/-! ## The loops over a visiting order -/

theorem resizeLoop_chain (panels : List VPanel) (toDown : Bool) :
    ∀ (visit : List Cursor) (fuel : Nat) (cursor : Cursor) (r : ℚ) (resizeMap : List (Nat × ℚ)),
      Chain (fun c => if toDown then nextPanel panels c else prevPanel panels c) cursor visit →
      visit.length < fuel →
      resizeLoop panels toDown fuel cursor r resizeMap = .ok (resizeMap ++ planPairs r visit) := by
  intro visit
  induction visit with
  | nil =>
    intro fuel cursor r resizeMap hc hf
    cases hc with
    | done hnone =>
      obtain ⟨f, rfl⟩ : ∃ f, fuel = f + 1 := ⟨fuel - 1, by simp at hf; omega⟩
      simp only [resizeLoop, planPairs, List.append_nil]
      simp only [hnone]
  | cons nxt rest ih =>
    intro fuel cursor r resizeMap hc hf
    cases hc with
    | more hsome hrest =>
      obtain ⟨f, rfl⟩ : ∃ f, fuel = f + 1 := ⟨fuel - 1, by simp at hf; omega⟩
      have hf2 : rest.length < f := by simp at hf; omega
      simp only [resizeLoop, planPairs]
      simp only [hsome]
      by_cases hs : nxt.2.isSplitter = true
      · simp only [hs, if_true]
        exact ih f nxt r resizeMap hrest hf2
      · simp only [hs, if_false, Bool.false_eq_true]
        by_cases hneg : r - (nxt.2.getResizeInfoByGrowth (-r)).2 < 0
        · simp only [hneg, if_true]
        · simp only [hneg, if_false]
          rw [ih f nxt _ _ hrest hf2]
          simp

theorem reserveLoop_chain (panels : List VPanel) (down : Bool) :
    ∀ (visit : List Cursor) (fuel : Nat) (cursor : Cursor) (acc : ℚ),
      Chain (fun c => if down then nextPanel panels c else prevPanel panels c) cursor visit →
      visit.length < fuel →
      reserveLoop panels down fuel cursor acc
        = .ok (acc + (visit.map (fun c => reserveOf c.2)).sum) := by
  intro visit
  induction visit with
  | nil =>
    intro fuel cursor acc hc hf
    cases hc with
    | done hnone =>
      obtain ⟨f, rfl⟩ : ∃ f, fuel = f + 1 := ⟨fuel - 1, by simp at hf; omega⟩
      simp only [reserveLoop, List.map_nil, List.sum_nil, add_zero]
      simp only [hnone]
  | cons nxt rest ih =>
    intro fuel cursor acc hc hf
    cases hc with
    | more hsome hrest =>
      obtain ⟨f, rfl⟩ : ∃ f, fuel = f + 1 := ⟨fuel - 1, by simp at hf; omega⟩
      have hf2 : rest.length < f := by simp at hf; omega
      simp only [reserveLoop]
      simp only [hsome]
      rw [ih f nxt _ hrest hf2]
      simp [add_assoc]

/-! ## Applying a resize plan -/

theorem setHeightAt_mid (pre post : List VPanel) (p : VPanel) (v : ℚ) :
    setHeightAt (pre ++ p :: post) pre.length v = pre ++ p.setHeight v :: post := by
  unfold setHeightAt
  rw [getElem?_mid]
  simp

theorem applyResizeMap_cons (panels : List VPanel) (pair : Nat × ℚ) (rest : List (Nat × ℚ)) :
    applyResizeMap panels (pair :: rest)
      = applyResizeMap (setHeightAt panels pair.1 pair.2) rest := rfl

theorem apply_plan_down :
    ∀ (post pre : List VPanel) (r : ℚ),
      applyResizeMap (pre ++ post) (planPairs r (post.enumFrom pre.length))
        = pre ++ cascade r post := by
  intro post
  induction post with
  | nil => intro pre r; simp [planPairs, cascade, applyResizeMap]
  | cons q post ih =>
    intro pre r
    have ih1 := fun (q1 : VPanel) (r1 : ℚ) => ih (pre ++ [q1]) r1
    simp only [List.length_append, List.length_singleton, List.append_assoc,
      List.singleton_append] at ih1
    simp only [List.enumFrom_cons, planPairs, cascade]
    by_cases hs : q.isSplitter = true
    · simp only [hs, if_true]
      exact ih1 q r
    · simp only [hs, if_false, Bool.false_eq_true]
      rw [applyResizeMap_cons]
      simp only [setHeightAt_mid]
      by_cases hneg : r - (q.getResizeInfoByGrowth (-r)).2 < 0
      · simp only [hneg, if_true]
        rfl
      · simp only [hneg, if_false]
        exact ih1 _ _

theorem apply_plan_up :
    ∀ (pre post : List VPanel) (r : ℚ),
      applyResizeMap (pre ++ post) (planPairs r pre.enum.reverse)
        = (cascade r pre.reverse).reverse ++ post := by
  intro pre
  induction pre using List.reverseRecOn with
  | nil => intro post r; simp [planPairs, cascade, applyResizeMap]
  | append_singleton pre q ih =>
    intro post r
    have ih1 := fun (q1 : VPanel) (r1 : ℚ) => ih (q1 :: post) r1
    simp only [List.enum_append, List.reverse_append, List.enumFrom_cons, List.enumFrom_nil,
      List.reverse_cons, List.reverse_nil, List.nil_append, List.singleton_append,
      List.append_assoc, planPairs, cascade]
    by_cases hs : q.isSplitter = true
    · simp only [hs, if_true, List.reverse_cons, List.append_assoc, List.singleton_append]
      exact ih1 q r
    · simp only [hs, if_false, Bool.false_eq_true]
      rw [applyResizeMap_cons]
      simp only [setHeightAt_mid]
      by_cases hneg : r - (q.getResizeInfoByGrowth (-r)).2 < 0
      · simp only [hneg, if_true, List.reverse_cons, List.reverse_reverse, List.append_assoc,
          List.singleton_append]
        rfl
      · simp only [hneg, if_false, List.reverse_cons, List.append_assoc, List.singleton_append]
        exact ih1 _ _

/-! ## `_resize` on a well-indexed stack -/

theorem resize_down {panels pre post : List VPanel} {g spl : VPanel} (hw : WellIndexed panels)
    (hps : panels = pre ++ g :: spl :: post) {fuel : Nat} (hf : panels.length ≤ fuel)
    {startY mouseY : ℚ} (hdir : mouseY > startY) :
    _resize fuel panels (pre.length + 1) startY mouseY
      = .ok (pre ++ g.setHeight (g.getResizeInfoByGrowth |startY - mouseY|).1
              :: cascade |startY - mouseY| (spl :: post)) := by
  have hs : panels[pre.length + 1]? = some spl := by
    have := getElem?_mid (pre ++ [g]) post spl
    simpa [hps] using this
  have hg : panels[pre.length]? = some g := by rw [hps]; exact getElem?_mid pre _ g
  have hprev : prevPanel panels (pre.length + 1, spl) = some (pre.length, g) := by
    rw [prevPanel_succ hw hs, hg]; rfl
  have hchain := chain_next hw (spl :: post) pre g hps
  have hlen : ((spl :: post).enumFrom (pre.length + 1)).length < fuel := by
    have : panels.length = pre.length + (post.length + 2) := by simp [hps]
    simp only [List.enumFrom_length, List.length_cons]
    omega
  have hloop := resizeLoop_chain panels true _ fuel (pre.length, g) |startY - mouseY|
    [(pre.length, (g.getResizeInfoByGrowth |startY - mouseY|).1)] (by simpa using hchain) hlen
  unfold _resize
  simp only [hs, hdir, decide_True, if_true, hprev, hloop]
  rw [List.singleton_append, applyResizeMap_cons, hps]
  simp only [setHeightAt_mid]
  have := apply_plan_down (spl :: post)
    (pre ++ [g.setHeight (g.getResizeInfoByGrowth |startY - mouseY|).1]) |startY - mouseY|
  simpa using this

theorem resize_up {panels pre post : List VPanel} {g spl : VPanel} (hw : WellIndexed panels)
    (hps : panels = pre ++ spl :: g :: post) {fuel : Nat} (hf : panels.length ≤ fuel)
    {startY mouseY : ℚ} (hdir : ¬ mouseY > startY) :
    _resize fuel panels pre.length startY mouseY
      = .ok ((cascade |startY - mouseY| (spl :: pre.reverse)).reverse
              ++ g.setHeight (g.getResizeInfoByGrowth |startY - mouseY|).1 :: post) := by
  have hs : panels[pre.length]? = some spl := by rw [hps]; exact getElem?_mid pre _ spl
  have hps2 : panels = (pre ++ [spl]) ++ g :: post := by simp [hps]
  have hg : panels[pre.length + 1]? = some g := by
    have := getElem?_mid (pre ++ [spl]) post g
    simpa [hps] using this
  have hnext : nextPanel panels (pre.length, spl) = some (pre.length + 1, g) := by
    rw [nextPanel_eq hw hs, hg]; rfl
  have hchain := chain_prev hw (pre ++ [spl]) post g hps2
  simp only [List.length_append, List.length_singleton] at hchain
  have hlen : ((pre ++ [spl]).enum.reverse).length < fuel := by
    have : panels.length = pre.length + (post.length + 2) := by simp [hps]
    simp only [List.length_reverse, List.enum_length, List.length_append, List.length_singleton]
    omega
  have hloop := resizeLoop_chain panels false _ fuel (pre.length + 1, g) |startY - mouseY|
    [(pre.length + 1, (g.getResizeInfoByGrowth |startY - mouseY|).1)]
    (by simpa using hchain) hlen
  unfold _resize
  simp only [hs, hdir, decide_False, if_false, Bool.false_eq_true, hnext, hloop]
  rw [List.singleton_append, applyResizeMap_cons, hps2]
  have hset := setHeightAt_mid (pre ++ [spl]) post g (g.getResizeInfoByGrowth |startY - mouseY|).1
  simp only [List.length_append, List.length_singleton] at hset
  simp only [hset]
  have := apply_plan_up (pre ++ [spl])
    (g.setHeight (g.getResizeInfoByGrowth |startY - mouseY|).1 :: post) |startY - mouseY|
  simpa using this

/-! ## Properties of the cascade -/

theorem cascade_length : ∀ (l : List VPanel) (r : ℚ), (cascade r l).length = l.length := by
  intro l
  induction l with
  | nil => intro r; rfl
  | cons p rest ih =>
    intro r
    simp only [cascade]
    split_ifs <;> simp [ih]

theorem cascade_frame : ∀ (l : List VPanel) (r : ℚ), (cascade r l).map frame = l.map frame := by
  intro l
  induction l with
  | nil => intro r; rfl
  | cons p rest ih =>
    intro r
    simp only [cascade]
    split_ifs <;> simp [ih, frame, VPanel.setHeight]

theorem cascade_min : ∀ (l : List VPanel) (r : ℚ), MinRespected l → MinRespected (cascade r l) := by
  intro l
  induction l with
  | nil => intro r h; exact h
  | cons p rest ih =>
    intro r h
    have hp : p.minHeight ≤ p.height := h p (List.mem_cons_self _ _)
    have hrest : MinRespected rest := fun q hq => h q (List.mem_cons_of_mem _ hq)
    have hnew : p.minHeight ≤ (p.setHeight (p.getResizeInfoByGrowth (-r)).1).height := by
      simp [VPanel.setHeight, VPanel.getResizeInfoByGrowth]
    simp only [cascade]
    split_ifs
    · intro q hq
      rcases List.mem_cons.mp hq with rfl | hq
      · exact hp
      · exact ih r hrest q hq
    · intro q hq
      rcases List.mem_cons.mp hq with rfl | hq
      · exact hnew
      · exact hrest q hq
    · intro q hq
      rcases List.mem_cons.mp hq with rfl | hq
      · exact hnew
      · exact ih _ hrest q hq

theorem capacity_cons (p : VPanel) (rest : List VPanel) :
    capacity (p :: rest)
      = (if p.isSplitter then 0 else p.height - p.minHeight) + capacity rest := by
  unfold capacity
  by_cases hs : p.isSplitter = true
  · simp [List.filter_cons, hs]
  · simp only [Bool.not_eq_true] at hs
    simp [List.filter_cons, hs]

theorem capacity_nonneg : ∀ (l : List VPanel), MinRespected l → 0 ≤ capacity l := by
  intro l
  induction l with
  | nil => intro _; simp [capacity]
  | cons p rest ih =>
    intro h
    have hp : p.minHeight ≤ p.height := h p (List.mem_cons_self _ _)
    have hrest := ih (fun q hq => h q (List.mem_cons_of_mem _ hq))
    rw [capacity_cons]
    split_ifs
    · linarith
    · linarith

/-- The amount left after a panel took its part is never negative: a panel absorbs at
most what is asked of it. -/
theorem remaining_nonneg (p : VPanel) (r : ℚ) :
    ¬ r - (p.getResizeInfoByGrowth (-r)).2 < 0 := by
  simp only [VPanel.getResizeInfoByGrowth, VPanel.getHeight, not_lt]
  rcases le_total p.minHeight (p.height + -r) with h | h
  · rw [max_eq_right h]; linarith
  · rw [max_eq_left h]; linarith

theorem cascade_sum : ∀ (l : List VPanel) (r : ℚ), MinRespected l → 0 ≤ r →
    sumHeights (cascade r l) = sumHeights l - min r (capacity l) := by
  intro l
  induction l with
  | nil => intro r _ hr; simp [cascade, sumHeights, capacity, hr]
  | cons p rest ih =>
    intro r h hr
    have hp : p.minHeight ≤ p.height := h p (List.mem_cons_self _ _)
    have hrest : MinRespected rest := fun q hq => h q (List.mem_cons_of_mem _ hq)
    have hcap := capacity_nonneg rest hrest
    have hrem := remaining_nonneg p r
    simp only [cascade, capacity_cons]
    by_cases hs : p.isSplitter = true
    · simp only [hs, if_true, zero_add]
      have := ih r hrest hr
      simp only [sumHeights, List.map_cons, List.sum_cons] at this ⊢
      rw [this]; ring
    · simp only [hs, if_false, Bool.false_eq_true, hrem]
      have hr2 : 0 ≤ r - (p.getResizeInfoByGrowth (-r)).2 := not_lt.mp hrem
      have := ih _ hrest hr2
      simp only [sumHeights, List.map_cons, List.sum_cons] at this ⊢
      rw [this]
      simp only [VPanel.getResizeInfoByGrowth, VPanel.getHeight, VPanel.setHeight]
      rcases le_total p.minHeight (p.height + -r) with h1 | h1
      · rw [max_eq_right h1]
        have e : r - (p.height - (p.height + -r)) = 0 := by ring
        rw [e, min_eq_left hcap, min_eq_left (by linarith)]
        ring
      · rw [max_eq_left h1]
        rcases le_total (r - (p.height - p.minHeight)) (capacity rest) with h2 | h2
        · rw [min_eq_left h2, min_eq_left (by linarith)]; ring
        · rw [min_eq_right h2, min_eq_right (by linarith)]; ring

theorem cascade_heights : ∀ (l : List VPanel) (r : ℚ),
    ((cascade r l).filter (fun p => !p.isSplitter)).map VPanel.getHeight
      = cascadeHeights r (l.filter (fun p => !p.isSplitter)) := by
  intro l
  induction l with
  | nil => intro r; simp [cascade, cascadeHeights]
  | cons p rest ih =>
    intro r
    have hrem := remaining_nonneg p r
    simp only [cascade]
    by_cases hs : p.isSplitter = true
    · simp only [hs, if_true, List.filter_cons, Bool.not_true, Bool.false_eq_true, if_false]
      exact ih r
    · simp only [hs, if_false, Bool.false_eq_true, hrem]
      have := ih (r - (p.getResizeInfoByGrowth (-r)).2)
      simp only [Bool.not_eq_true] at hs
      have hs2 : (p.setHeight (p.getResizeInfoByGrowth (-r)).1).isSplitter = false := hs
      simp only [List.filter_cons, hs, hs2, Bool.not_false, if_true, List.map_cons, cascadeHeights,
        this]
      simp [VPanel.getResizeInfoByGrowth, VPanel.getHeight, VPanel.setHeight, sub_eq_add_neg]

theorem cascadeHeights_length : ∀ (qs : List VPanel) (r : ℚ),
    (cascadeHeights r qs).length = qs.length := by
  intro qs
  induction qs with
  | nil => intro r; rfl
  | cons q qs ih => intro r; simp [cascadeHeights, ih]

theorem cascadeHeights_floor : ∀ (qs : List VPanel) (r : ℚ), MinRespected qs → 0 ≤ r →
    ∀ (i : Nat) (q q2 : VPanel) (v2 : ℚ), qs[i]? = some q → qs[i + 1]? = some q2 →
      (cascadeHeights r qs)[i + 1]? = some v2 → v2 < q2.height →
      (cascadeHeights r qs)[i]? = some q.minHeight := by
  intro qs
  induction qs with
  | nil => intro r _ _ i q q2 v2 h; simp at h
  | cons q0 rest ih =>
    intro r hmin hr i q q2 v2 hq hq2 hv hlt
    have hq0 : q0.minHeight ≤ q0.height := hmin q0 (List.mem_cons_self _ _)
    have hrest : MinRespected rest := fun p hp => hmin p (List.mem_cons_of_mem _ hp)
    have hr2 : 0 ≤ r - (q0.height - max q0.minHeight (q0.height - r)) := by
      rcases le_total q0.minHeight (q0.height - r) with h | h
      · rw [max_eq_right h]; linarith
      · rw [max_eq_left h]; linarith
    cases i with
    | zero =>
      simp only [List.getElem?_cons_zero, Option.some.injEq] at hq
      subst hq
      simp only [zero_add, List.getElem?_cons_succ] at hq2 hv
      cases rest with
      | nil => simp at hq2
      | cons q1 rest1 =>
        simp only [List.getElem?_cons_zero, Option.some.injEq] at hq2
        subst hq2
        have h1 : q1.minHeight ≤ q1.height := hrest q1 (List.mem_cons_self _ _)
        simp only [cascadeHeights, List.getElem?_cons_succ, List.getElem?_cons_zero,
          Option.some.injEq] at hv ⊢
        subst hv
        rcases le_total q0.minHeight (q0.height - r) with h | h
        · exfalso
          rw [max_eq_right h] at hlt
          have e : r - (q0.height - (q0.height - r)) = 0 := by ring
          rw [e, sub_zero, max_eq_right h1] at hlt
          exact lt_irrefl _ hlt
        · exact max_eq_left h
    | succ j =>
      simp only [List.getElem?_cons_succ] at hq hq2
      simp only [cascadeHeights, List.getElem?_cons_succ] at hv ⊢
      exact ih _ hrest hr2 j q q2 v2 hq hq2 hv hlt

/-! ## Splitting a stack at the dragged splitter -/

theorem split_at {l : List VPanel} {k : Nat} {p : VPanel} (h : l[k]? = some p) :
    l = l.take k ++ p :: l.drop (k + 1) := by
  obtain ⟨hk, rfl⟩ := List.getElem?_eq_some.mp h
  rw [← List.drop_eq_getElem_cons hk, List.take_append_drop]

theorem split_two {l : List VPanel} {k : Nat} {p q : VPanel} (hp : l[k]? = some p)
    (hq : l[k + 1]? = some q) : l = l.take k ++ p :: q :: l.drop (k + 2) := by
  have h1 := split_at hp
  have h2 : l.drop (k + 1) = q :: l.drop (k + 2) := by
    obtain ⟨hk, rfl⟩ := List.getElem?_eq_some.mp hq
    exact List.drop_eq_getElem_cons hk
  rw [h2] at h1
  exact h1

theorem length_take_of_getElem? {l : List VPanel} {k : Nat} {p : VPanel} (h : l[k]? = some p) :
    (l.take k).length = k := by
  obtain ⟨hk, -⟩ := List.getElem?_eq_some.mp h
  simp [List.length_take, Nat.min_eq_left (Nat.le_of_lt hk)]

theorem MinRespected.sub {l l2 : List VPanel} (h : MinRespected l) (hsub : ∀ p ∈ l2, p ∈ l) :
    MinRespected l2 := fun p hp => h p (hsub p hp)

/-- The stack after a downward drag of the splitter at position `k + 1`. -/
theorem resize_toDown {panels : List VPanel} {k : Nat} {g spl : VPanel} (hw : WellIndexed panels)
    (hg : panels[k]? = some g) (hs : panels[k + 1]? = some spl) (hspl : spl.isSplitter = true)
    {fuel : Nat} (hf : panels.length ≤ fuel) {startY mouseY : ℚ} (hdir : mouseY > startY) :
    _resize fuel panels (k + 1) startY mouseY
      = .ok (panels.take k ++ g.setHeight (g.getResizeInfoByGrowth |startY - mouseY|).1
              :: spl :: cascade |startY - mouseY| (panels.drop (k + 2))) := by
  have hps := split_two hg hs
  have hlen := length_take_of_getElem? hg
  have := resize_down hw hps hf hdir
  rw [hlen] at this
  rw [this]
  simp [cascade, hspl]

/-- The stack after an upward (or zero-length) drag of the splitter at position `s`. -/
theorem resize_toUp {panels : List VPanel} {s : Nat} {g spl : VPanel} (hw : WellIndexed panels)
    (hs : panels[s]? = some spl) (hg : panels[s + 1]? = some g) (hspl : spl.isSplitter = true)
    {fuel : Nat} (hf : panels.length ≤ fuel) {startY mouseY : ℚ} (hdir : ¬ mouseY > startY) :
    _resize fuel panels s startY mouseY
      = .ok ((cascade |startY - mouseY| (panels.take s).reverse).reverse
              ++ spl :: g.setHeight (g.getResizeInfoByGrowth |startY - mouseY|).1
              :: panels.drop (s + 2)) := by
  have hps := split_two hs hg
  have hlen := length_take_of_getElem? hs
  have := resize_up hw hps hf hdir
  rw [hlen] at this
  rw [this]
  simp [cascade, hspl]

/-! ## Claims about `_resize` -/

theorem drop_mid_two (pre post : List VPanel) (a b : VPanel) {k : Nat} (hk : pre.length = k) :
    (pre ++ a :: b :: post).drop (k + 2) = post := by
  have : pre ++ a :: b :: post = (pre ++ [a, b]) ++ post := by simp
  rw [this]
  exact List.drop_left' (by simp [hk])

theorem exampleStack_minRespected : MinRespected exampleStack := by
  intro p hp
  simp only [exampleStack, List.mem_cons, List.mem_singleton, List.not_mem_nil, or_false] at hp
  rcases hp with rfl | rfl | rfl | rfl | rfl <;> norm_num

/-- C1. Cascading shrink: on a stack whose panels carry their positions as index and
respect their minimum heights, `_resize` on a splitter with a neighbour on the growing
side returns, leaves everything but heights as it was, and gives the non-splitter panels
of the shrinking side, in walk order, the heights `max(minHeight_i, h_i - r_i)` with
`r_1 = |startY - mouseY|` and `r_(i+1) = r_i - (h_i - newHeight_i)`; a panel is shrunk
only if the one before it in walk order ended exactly at its minimum height. -/
theorem resize_cascading_shrink (panels : List VPanel) (s : Nat) (spl : VPanel)
    (startY mouseY : ℚ) (fuel : Nat)
    (hw : WellIndexed panels) (hmin : MinRespected panels)
    (hs : panels[s]? = some spl) (hspl : spl.isSplitter = true)
    (hdown : mouseY > startY → 0 < s) (hup : ¬ mouseY > startY → s + 1 < panels.length)
    (hf : panels.length ≤ fuel) :
    ∃ panels', _resize fuel panels s startY mouseY = .ok panels' ∧
      panels'.map frame = panels.map frame ∧
      (shrinkSide panels' s (decide (mouseY > startY))).map VPanel.getHeight
        = cascadeHeights |startY - mouseY| (shrinkSide panels s (decide (mouseY > startY))) ∧
      ∀ (i : Nat) (q q2 : VPanel) (v2 : ℚ),
        (shrinkSide panels s (decide (mouseY > startY)))[i]? = some q →
        (shrinkSide panels s (decide (mouseY > startY)))[i + 1]? = some q2 →
        ((shrinkSide panels' s (decide (mouseY > startY))).map VPanel.getHeight)[i + 1]?
          = some v2 →
        v2 < q2.height →
        ((shrinkSide panels' s (decide (mouseY > startY))).map VPanel.getHeight)[i]?
          = some q.minHeight := by
  have key : ∀ panels', (shrinkSide panels' s (decide (mouseY > startY))).map VPanel.getHeight
        = cascadeHeights |startY - mouseY| (shrinkSide panels s (decide (mouseY > startY))) →
      ∀ (i : Nat) (q q2 : VPanel) (v2 : ℚ),
        (shrinkSide panels s (decide (mouseY > startY)))[i]? = some q →
        (shrinkSide panels s (decide (mouseY > startY)))[i + 1]? = some q2 →
        ((shrinkSide panels' s (decide (mouseY > startY))).map VPanel.getHeight)[i + 1]?
          = some v2 →
        v2 < q2.height →
        ((shrinkSide panels' s (decide (mouseY > startY))).map VPanel.getHeight)[i]?
          = some q.minHeight := by
    intro panels' heq i q q2 v2 hq hq2 hv hlt
    rw [heq] at hv ⊢
    refine cascadeHeights_floor _ _ (hmin.sub ?_) (abs_nonneg _) i q q2 v2 hq hq2 hv hlt
    intro p hp
    unfold shrinkSide at hp
    have hp1 := List.mem_of_mem_filter hp
    split_ifs at hp1
    · exact List.mem_of_mem_drop hp1
    · exact List.mem_of_mem_take (List.mem_reverse.mp hp1)
  by_cases hdir : mouseY > startY
  · obtain ⟨k, rfl⟩ : ∃ k, s = k + 1 := ⟨s - 1, by have := hdown hdir; omega⟩
    obtain ⟨g, hg⟩ : ∃ g, panels[k]? = some g := by
      obtain ⟨hk, -⟩ := List.getElem?_eq_some.mp hs
      exact ⟨panels[k], List.getElem?_eq_getElem (by omega)⟩
    have hres := resize_toDown hw hg hs hspl hf hdir
    have hlen := length_take_of_getElem? hg
    have hshrink : (shrinkSide (panels.take k
          ++ g.setHeight (g.getResizeInfoByGrowth |startY - mouseY|).1
          :: spl :: cascade |startY - mouseY| (panels.drop (k + 2))) (k + 1)
          (decide (mouseY > startY))).map VPanel.getHeight
        = cascadeHeights |startY - mouseY|
            (shrinkSide panels (k + 1) (decide (mouseY > startY))) := by
      simp only [shrinkSide, hdir, decide_True, if_true]
      rw [drop_mid_two _ _ _ _ hlen]
      exact cascade_heights _ _
    refine ⟨_, hres, ?_, hshrink, key _ hshrink⟩
    conv_rhs => rw [split_two hg hs]
    simp [cascade_frame, frame, VPanel.setHeight]
  · have hlt := hup hdir
    obtain ⟨g, hg⟩ : ∃ g, panels[s + 1]? = some g :=
      ⟨panels[s + 1], List.getElem?_eq_getElem hlt⟩
    have hres := resize_toUp hw hs hg hspl hf hdir
    have hlen := length_take_of_getElem? hs
    have hshrink : (shrinkSide ((cascade |startY - mouseY| (panels.take s).reverse).reverse
          ++ spl :: g.setHeight (g.getResizeInfoByGrowth |startY - mouseY|).1
          :: panels.drop (s + 2)) s (decide (mouseY > startY))).map VPanel.getHeight
        = cascadeHeights |startY - mouseY| (shrinkSide panels s (decide (mouseY > startY))) := by
      simp only [shrinkSide, hdir, decide_False, if_false, Bool.false_eq_true]
      rw [List.take_left' (by simp [cascade_length, hlen]), List.reverse_reverse]
      exact cascade_heights _ _
    refine ⟨_, hres, ?_, hshrink, key _ hshrink⟩
    conv_rhs => rw [split_two hs hg]
    simp only [List.map_append, List.map_reverse, cascade_frame, List.reverse_reverse,
      List.map_cons]
    simp [frame, VPanel.setHeight]

/-- Witness for C1: the example stack, splitter at position 1 dragged down from 80 to 170. -/
theorem resize_cascading_shrink_witness :
    ∃ panels', _resize 5 exampleStack 1 80 170 = .ok panels' ∧
      panels'.map frame = exampleStack.map frame ∧
      (shrinkSide panels' 1 (decide ((170 : ℚ) > 80))).map VPanel.getHeight
        = cascadeHeights |(80 : ℚ) - 170| (shrinkSide exampleStack 1 (decide ((170 : ℚ) > 80))) ∧
      ∀ (i : Nat) (q q2 : VPanel) (v2 : ℚ),
        (shrinkSide exampleStack 1 (decide ((170 : ℚ) > 80)))[i]? = some q →
        (shrinkSide exampleStack 1 (decide ((170 : ℚ) > 80)))[i + 1]? = some q2 →
        ((shrinkSide panels' 1 (decide ((170 : ℚ) > 80))).map VPanel.getHeight)[i + 1]?
          = some v2 →
        v2 < q2.height →
        ((shrinkSide panels' 1 (decide ((170 : ℚ) > 80))).map VPanel.getHeight)[i]?
          = some q.minHeight :=
  resize_cascading_shrink exampleStack 1 ⟨1, 0, 10, true, false⟩ 80 170 5 (by decide)
    exampleStack_minRespected (by decide) (by decide) (by intro _; decide)
    (by intro h; exact absurd (by norm_num) h) (by decide)

/-! ## Sums of heights and reserves -/

theorem sumHeights_nil : sumHeights [] = 0 := rfl

theorem sumHeights_cons (p : VPanel) (l : List VPanel) :
    sumHeights (p :: l) = p.height + sumHeights l := by
  simp [sumHeights, VPanel.getHeight]

theorem sumHeights_append (l1 l2 : List VPanel) :
    sumHeights (l1 ++ l2) = sumHeights l1 + sumHeights l2 := by
  simp [sumHeights]

theorem sumHeights_reverse (l : List VPanel) : sumHeights l.reverse = sumHeights l := by
  simp [sumHeights, List.sum_reverse]

theorem capacity_eq : ∀ (l : List VPanel),
    capacity l = sumHeights l - (l.map reserveOf).sum := by
  intro l
  induction l with
  | nil => simp [capacity, sumHeights]
  | cons p rest ih =>
    rw [capacity_cons, ih, sumHeights_cons]
    simp only [List.map_cons, List.sum_cons, reserveOf, VPanel.getHeight]
    split_ifs <;> ring

theorem reserve_reverse (l : List VPanel) :
    (l.reverse.map reserveOf).sum = (l.map reserveOf).sum := by
  simp [List.sum_reverse]

theorem capacity_reverse (l : List VPanel) : capacity l.reverse = capacity l := by
  rw [capacity_eq, capacity_eq, sumHeights_reverse, reserve_reverse]

theorem MinRespected.reverse {l : List VPanel} (h : MinRespected l) : MinRespected l.reverse :=
  h.sub (fun _ hp => List.mem_reverse.mp hp)

theorem grow_height (g : VPanel) {d : ℚ} (hg : g.minHeight ≤ g.height) (hd : 0 ≤ d) :
    (g.getResizeInfoByGrowth d).1 = g.height + d := by
  simp only [VPanel.getResizeInfoByGrowth, VPanel.getHeight]
  exact max_eq_right (by linarith)

/-! ## `_getMouseYAdditionalLimit` on a well-indexed stack -/

theorem getMouseYAdditionalLimit_eq {panels : List VPanel} {s : Nat} {spl : VPanel}
    (hw : WellIndexed panels) (hs : panels[s]? = some spl) {fuel : Nat}
    (hf : panels.length ≤ fuel) :
    _getMouseYAdditionalLimit fuel panels s
      = .ok (((panels.take s).map reserveOf).sum, ((panels.drop (s + 1)).map reserveOf).sum) := by
  have hps := split_at hs
  have hlen := length_take_of_getElem? hs
  have htot : panels.length = s + ((panels.drop (s + 1)).length + 1) := by
    conv_lhs => rw [hps]
    simp [hlen]
  have hup := chain_prev hw _ _ _ hps
  have hdn := chain_next hw _ _ _ hps
  rw [hlen] at hup hdn
  have e1 := reserveLoop_chain panels false _ fuel (s, spl) 0 (by simpa using hup)
    (by simp only [List.length_reverse, List.enum_length, hlen]; omega)
  have e2 := reserveLoop_chain panels true _ fuel (s, spl) 0 (by simpa using hdn)
    (by simp only [List.enumFrom_length]; omega)
  have m1 : ((panels.take s).enum.reverse.map (fun c => reserveOf c.2)).sum
      = ((panels.take s).map reserveOf).sum := by
    rw [List.map_reverse, List.sum_reverse]
    congr 1
    rw [← List.enum_map_snd (panels.take s), List.map_map, List.enum_map_snd]
    rfl
  have m2 : (((panels.drop (s + 1)).enumFrom (s + 1)).map (fun c => reserveOf c.2)).sum
      = ((panels.drop (s + 1)).map reserveOf).sum := by
    congr 1
    conv_rhs => rw [← List.enumFrom_map_snd (s + 1) (panels.drop (s + 1)), List.map_map]
    rfl
  rw [m1, zero_add] at e1
  rw [m2, zero_add] at e2
  unfold _getMouseYAdditionalLimit
  simp only [hs, e1, e2]

/-! ## A release inside the reserve bounds -/

theorem reserve_le_sumHeights {l : List VPanel} (h : MinRespected l) :
    (l.map reserveOf).sum ≤ sumHeights l := by
  have h1 := capacity_nonneg l h
  rw [capacity_eq] at h1
  linarith

theorem limit_bounds (value : ℚ) {lo hi : ℚ} (h : lo ≤ hi) :
    lo ≤ limit value lo hi ∧ limit value lo hi ≤ hi :=
  ⟨le_min (le_max_right _ _) h, min_le_right _ _⟩

/-- A release between the two reserves keeps the sum of heights and puts the splitter's top
edge at the release position. -/
theorem resize_within_reserve {panels : List VPanel} {s : Nat} {spl : VPanel}
    (hw : WellIndexed panels) (hmin : MinRespected panels)
    (hs : panels[s]? = some spl) (hspl : spl.isSplitter = true)
    {startY mouseY : ℚ}
    (hdown : mouseY > startY → 0 < s) (hup : ¬ mouseY > startY → s + 1 < panels.length)
    {fuel : Nat} (hf : panels.length ≤ fuel)
    (hstart : startY = sumHeights (panels.take s))
    (hlo : ((panels.take s).map reserveOf).sum ≤ mouseY)
    (hhi : mouseY ≤ sumHeights panels - spl.height - ((panels.drop (s + 1)).map reserveOf).sum) :
    ∃ panels', _resize fuel panels s startY mouseY = .ok panels' ∧
      sumHeights panels' = sumHeights panels ∧ sumHeights (panels'.take s) = mouseY := by
  by_cases hdir : mouseY > startY
  · obtain ⟨k, rfl⟩ : ∃ k, s = k + 1 := ⟨s - 1, by have := hdown hdir; omega⟩
    obtain ⟨g, hg⟩ : ∃ g, panels[k]? = some g := by
      obtain ⟨hk, -⟩ := List.getElem?_eq_some.mp hs
      exact ⟨panels[k], List.getElem?_eq_getElem (by omega)⟩
    have hres := resize_toDown hw hg hs hspl hf hdir
    have hlen := length_take_of_getElem? hg
    have hps := split_two hg hs
    have hd : |startY - mouseY| = mouseY - startY := by
      rw [abs_of_neg (by linarith)]; ring
    have htake : panels.take (k + 1) = panels.take k ++ [g] := by
      rw [List.take_succ, hg]; rfl
    have hsumB : startY = sumHeights (panels.take k) + g.height := by
      rw [hstart, htake, sumHeights_append, sumHeights_cons, sumHeights_nil, add_zero]
    have hsumAll : sumHeights panels
        = sumHeights (panels.take k) + (g.height + (spl.height + sumHeights (panels.drop (k + 2)))) := by
      conv_lhs => rw [hps]
      rw [sumHeights_append, sumHeights_cons, sumHeights_cons]
    have hminPost : MinRespected (panels.drop (k + 2)) :=
      hmin.sub (fun _ hp => List.mem_of_mem_drop hp)
    have hgmin : g.minHeight ≤ g.height := hmin g (List.getElem?_mem hg)
    have hcap : mouseY - startY ≤ capacity (panels.drop (k + 2)) := by
      rw [capacity_eq]
      have : panels.drop (k + 1 + 1) = panels.drop (k + 2) := rfl
      rw [this] at hhi
      linarith
    have hcs := cascade_sum (panels.drop (k + 2)) (mouseY - startY) hminPost (by linarith)
    rw [min_eq_left hcap] at hcs
    refine ⟨_, hres, ?_, ?_⟩
    · rw [hd, sumHeights_append, sumHeights_cons, sumHeights_cons, hcs, hsumAll]
      simp only [VPanel.setHeight, grow_height g hgmin (show (0 : ℚ) ≤ mouseY - startY by linarith)]
      ring
    · have e : panels.take k ++ g.setHeight (g.getResizeInfoByGrowth |startY - mouseY|).1
            :: spl :: cascade |startY - mouseY| (panels.drop (k + 2))
          = (panels.take k ++ [g.setHeight (g.getResizeInfoByGrowth |startY - mouseY|).1])
            ++ spl :: cascade |startY - mouseY| (panels.drop (k + 2)) := by simp
      rw [e, List.take_left' (by simp [hlen]), hd, sumHeights_append, sumHeights_cons,
        sumHeights_nil]
      simp only [VPanel.setHeight, grow_height g hgmin (show (0 : ℚ) ≤ mouseY - startY by linarith)]
      linarith
  · have hlt := hup hdir
    obtain ⟨g, hg⟩ : ∃ g, panels[s + 1]? = some g :=
      ⟨panels[s + 1], List.getElem?_eq_getElem hlt⟩
    have hres := resize_toUp hw hs hg hspl hf hdir
    have hlen := length_take_of_getElem? hs
    have hps := split_two hs hg
    have hle : mouseY ≤ startY := not_lt.mp hdir
    have hd : |startY - mouseY| = startY - mouseY := abs_of_nonneg (by linarith)
    have hsumAll : sumHeights panels
        = sumHeights (panels.take s) + (spl.height + (g.height + sumHeights (panels.drop (s + 2)))) := by
      conv_lhs => rw [hps]
      rw [sumHeights_append, sumHeights_cons, sumHeights_cons]
    have hminPre : MinRespected (panels.take s).reverse :=
      (hmin.sub (fun _ hp => List.mem_of_mem_take hp)).reverse
    have hgmin : g.minHeight ≤ g.height := hmin g (List.getElem?_mem hg)
    have hcap : startY - mouseY ≤ capacity (panels.take s).reverse := by
      rw [capacity_reverse, capacity_eq]
      linarith
    have hcs := cascade_sum (panels.take s).reverse (startY - mouseY) hminPre (by linarith)
    rw [min_eq_left hcap, sumHeights_reverse] at hcs
    refine ⟨_, hres, ?_, ?_⟩
    · rw [hd, sumHeights_append, sumHeights_reverse, sumHeights_cons, sumHeights_cons, hcs,
        hsumAll]
      simp only [VPanel.setHeight, grow_height g hgmin (show (0 : ℚ) ≤ startY - mouseY by linarith)]
      ring
    · rw [List.take_left' (by simp [cascade_length, hlen]), hd, sumHeights_reverse, hcs]
      linarith

/-- The drag data that `_onDragStart` stores. -/
theorem onDragStart_eq {panels : List VPanel} {s : Nat} {spl : VPanel}
    (hs : panels[s]? = some spl) (viewHeight splOffsetY pressY : ℚ) :
    _onDragStart panels viewHeight s splOffsetY pressY
      = .ok ⟨s, splOffsetY, pressY - splOffsetY, 0, viewHeight - spl.height⟩ := by
  simp [_onDragStart, hs, VPanel.getHeight]

/-- The call of `_resize` that `_onDragEnd` makes. -/
theorem onDragEnd_eq {panels : List VPanel} {spl : VPanel} (dragData : DragData)
    (hw : WellIndexed panels) (hs : panels[dragData.splPanel]? = some spl) {fuel : Nat}
    (hf : panels.length ≤ fuel) (mouseY : ℚ) :
    _onDragEnd fuel panels dragData mouseY
      = _resize fuel panels dragData.splPanel dragData.startY
          (releaseY dragData (((panels.take dragData.splPanel).map reserveOf).sum,
            ((panels.drop (dragData.splPanel + 1)).map reserveOf).sum) mouseY) := by
  unfold _onDragEnd
  rw [getMouseYAdditionalLimit_eq hw hs hf]

/-- On a settled stack the release interval is not empty. -/
theorem release_interval_nonempty {panels : List VPanel} {s : Nat} {spl : VPanel}
    (hmin : MinRespected panels) (hs : panels[s]? = some spl) :
    0 + ((panels.take s).map reserveOf).sum
      ≤ sumHeights panels - spl.height - ((panels.drop (s + 1)).map reserveOf).sum := by
  have h1 : (((panels.take s)).map reserveOf).sum ≤ sumHeights (panels.take s) :=
    reserve_le_sumHeights (hmin.sub (fun _ hp => List.mem_of_mem_take hp))
  have h2 : (((panels.drop (s + 1))).map reserveOf).sum ≤ sumHeights (panels.drop (s + 1)) :=
    reserve_le_sumHeights (hmin.sub (fun _ hp => List.mem_of_mem_drop hp))
  have h3 : sumHeights panels
      = sumHeights (panels.take s) + (spl.height + sumHeights (panels.drop (s + 1))) := by
    conv_lhs => rw [split_at hs]
    rw [sumHeights_append, sumHeights_cons]
  linarith

/-! ## `refresh` -/

theorem refreshScan_eq : ∀ (l : List VPanel) (k : Nat) (fill : List Nat) (used : ℚ),
    refreshScan l k (fill, used) = (fill ++ autoPositions k l, used + usedHeight l) := by
  intro l
  induction l with
  | nil => intro k fill used; simp [refreshScan, autoPositions, usedHeight]
  | cons p rest ih =>
    intro k fill used
    by_cases ha : p.autoHeight = true
    · simp only [refreshScan, ha, if_true, ih, autoPositions, usedHeight, List.filter_cons,
        Bool.not_true, Bool.false_eq_true, if_false, List.append_assoc, List.singleton_append]
    · simp only [Bool.not_eq_true] at ha
      simp only [refreshScan, ha, if_false, Bool.false_eq_true, ih, autoPositions, usedHeight,
        List.filter_cons, Bool.not_false, if_true, List.map_cons, List.sum_cons,
        VPanel.getHeight, add_assoc]

theorem autoPositions_length : ∀ (l : List VPanel) (k : Nat),
    (autoPositions k l).length = autoCount l := by
  intro l
  induction l with
  | nil => intro k; rfl
  | cons p rest ih =>
    intro k
    by_cases ha : p.autoHeight = true
    · have := ih (k + 1)
      unfold autoCount at this ⊢
      simp [autoPositions, ha, List.filter_cons, this]
    · simp only [Bool.not_eq_true] at ha
      have := ih (k + 1)
      unfold autoCount at this ⊢
      simp [autoPositions, ha, List.filter_cons, this]

theorem fill_eq : ∀ (post pre : List VPanel) (v : ℚ),
    (autoPositions pre.length post).foldl (fun acc k => setHeightAt acc k v) (pre ++ post)
      = pre ++ post.map (fun p => if p.autoHeight then p.setHeight v else p) := by
  intro post
  induction post with
  | nil => intro pre v; simp [autoPositions]
  | cons p rest ih =>
    intro pre v
    have ih1 := fun (q : VPanel) => ih (pre ++ [q]) v
    simp only [List.length_append, List.length_singleton, List.append_assoc,
      List.singleton_append] at ih1
    by_cases ha : p.autoHeight = true
    · simp only [autoPositions, ha, if_true, List.foldl_cons, setHeightAt_mid, List.map_cons]
      exact ih1 _
    · simp only [Bool.not_eq_true] at ha
      simp only [autoPositions, ha, if_false, Bool.false_eq_true, List.map_cons]
      exact ih1 _

/-- What `refresh` does, panel by panel. -/
theorem refresh_eq (panels : List VPanel) (viewHeight : ℚ) :
    refresh panels viewHeight
      = panels.map (fun p => if p.autoHeight then p.setHeight (autoShare panels viewHeight)
                             else p) := by
  unfold refresh
  simp only [refreshScan_eq, List.nil_append, zero_add, autoPositions_length]
  exact fill_eq panels [] _

theorem usedHeight_map_auto : ∀ (l : List VPanel) (v : ℚ),
    usedHeight (l.map (fun p => if p.autoHeight then p.setHeight v else p)) = usedHeight l := by
  intro l v
  induction l with
  | nil => rfl
  | cons p rest ih =>
    unfold usedHeight at ih ⊢
    by_cases ha : p.autoHeight = true
    · have : (p.setHeight v).autoHeight = true := ha
      simp only [List.map_cons, ha, if_true, List.filter_cons, this, Bool.not_true,
        Bool.false_eq_true, if_false]
      exact ih
    · simp only [Bool.not_eq_true] at ha
      simp only [List.map_cons, ha, if_false, Bool.false_eq_true, List.filter_cons,
        Bool.not_false, if_true, List.sum_cons, ih]

theorem autoCount_map_auto : ∀ (l : List VPanel) (v : ℚ),
    autoCount (l.map (fun p => if p.autoHeight then p.setHeight v else p)) = autoCount l := by
  intro l v
  induction l with
  | nil => rfl
  | cons p rest ih =>
    unfold autoCount at ih ⊢
    by_cases ha : p.autoHeight = true
    · have : (p.setHeight v).autoHeight = true := ha
      simp only [List.map_cons, ha, if_true, List.filter_cons, this, List.length_cons, ih]
    · simp only [Bool.not_eq_true] at ha
      simp only [List.map_cons, ha, if_false, Bool.false_eq_true, List.filter_cons, ih]

theorem sumHeights_map_auto : ∀ (l : List VPanel) (v : ℚ),
    sumHeights (l.map (fun p => if p.autoHeight then p.setHeight v else p))
      = usedHeight l + (autoCount l : ℚ) * v := by
  intro l v
  induction l with
  | nil => simp [sumHeights, usedHeight, autoCount]
  | cons p rest ih =>
    rw [List.map_cons, sumHeights_cons, ih]
    by_cases ha : p.autoHeight = true
    · simp only [ha, if_true, usedHeight, autoCount, List.filter_cons, Bool.not_true,
        Bool.false_eq_true, if_false, List.length_cons, VPanel.setHeight]
      push_cast
      ring
    · simp only [Bool.not_eq_true] at ha
      simp only [ha, if_false, Bool.false_eq_true, usedHeight, autoCount, List.filter_cons,
        Bool.not_false, if_true, List.map_cons, List.sum_cons]
      ring

theorem autoCount_pos {l : List VPanel} (h : ∃ p ∈ l, p.autoHeight = true) : 0 < autoCount l := by
  obtain ⟨p, hp, ha⟩ := h
  unfold autoCount
  exact List.length_pos_of_mem (List.mem_filter.mpr ⟨hp, ha⟩)

/-! ## Claims about `refresh` -/

/-- C4. `refresh` distributes the leftover height evenly: every panel that is not
auto-height is left as it is, and every auto-height panel gets the height
`(viewHeight - sum of the heights of the non-auto panels) / (number of auto panels)`,
with no remainder correction. -/
theorem refresh_distributes_evenly (panels : List VPanel) (viewHeight : ℚ) :
    refresh panels viewHeight
      = panels.map (fun p =>
          if p.autoHeight then
            { p with height :=
                (viewHeight - ((panels.filter (fun q => !q.autoHeight)).map (fun q => q.height)).sum)
                  / (((panels.filter (fun q => q.autoHeight)).length : Nat) : ℚ) }
          else p) :=
  refresh_eq panels viewHeight

/-- C5. After `refresh` on a stack with at least one auto-height panel the heights sum to
the viewport height. -/
theorem refresh_fills_container (panels : List VPanel) (viewHeight : ℚ)
    (hauto : ∃ p ∈ panels, p.autoHeight = true) :
    sumHeights (refresh panels viewHeight) = viewHeight := by
  have hpos : (0 : ℚ) < (autoCount panels : ℚ) := by exact_mod_cast autoCount_pos hauto
  rw [refresh_eq, sumHeights_map_auto, autoShare]
  field_simp

/-- Witness for C5: the example stack in a viewport of height 300. -/
theorem refresh_fills_container_witness : sumHeights (refresh exampleOptions 300) = 300 :=
  refresh_fills_container exampleOptions 300 ⟨⟨0, 20, 0, false, true⟩, by decide, rfl⟩

/-- Counterexample to C6: in a viewport of height 230 the example stack's fixed panels use
220, so the auto-height panel with `minHeight` 20 is given height 10. -/
theorem refresh_below_minHeight :
    (∀ p ∈ exampleOptions, p.autoHeight = false → p.minHeight ≤ p.height) ∧
      ¬ MinRespected (refresh exampleOptions 230) := by
  constructor
  · intro p hp
    simp only [exampleOptions, List.mem_cons, List.mem_singleton, List.not_mem_nil, or_false] at hp
    rcases hp with rfl | rfl | rfl | rfl | rfl <;> norm_num
  · intro h
    have hmem : (⟨0, 20, 10, false, true⟩ : VPanel) ∈ refresh exampleOptions 230 := by
      rw [refresh_eq]
      simp only [exampleOptions, List.map_cons, List.mem_cons]
      left
      norm_num [VPanel.setHeight, autoShare, usedHeight, autoCount]
    have := h _ hmem
    norm_num at this

/-- C6, amended. When the panels that are not auto-height respect their minimum heights,
all panels respect them after `refresh` exactly when the computed share is at least the
`minHeight` of every auto-height panel. -/
theorem refresh_minHeight_iff (panels : List VPanel) (viewHeight : ℚ)
    (hfixed : ∀ p ∈ panels, p.autoHeight = false → p.minHeight ≤ p.height) :
    MinRespected (refresh panels viewHeight) ↔
      ∀ p ∈ panels, p.autoHeight = true →
        p.minHeight ≤ (viewHeight
            - ((panels.filter (fun q => !q.autoHeight)).map (fun q => q.height)).sum)
          / (((panels.filter (fun q => q.autoHeight)).length : Nat) : ℚ) := by
  rw [refresh_eq]
  constructor
  · intro h p hp ha
    have := h _ (List.mem_map_of_mem _ hp)
    simpa [ha, VPanel.setHeight] using this
  · intro h q hq
    obtain ⟨p, hp, rfl⟩ := List.mem_map.mp hq
    by_cases ha : p.autoHeight = true
    · simpa [ha, VPanel.setHeight] using h p hp ha
    · simp only [Bool.not_eq_true] at ha
      simpa [ha] using hfixed p hp ha

/-- Witness for C6, amended: the example stack in a viewport of height 300. -/
theorem refresh_minHeight_iff_witness :
    MinRespected (refresh exampleOptions 300) ↔
      ∀ p ∈ exampleOptions, p.autoHeight = true →
        p.minHeight ≤ (300
            - ((exampleOptions.filter (fun q => !q.autoHeight)).map (fun q => q.height)).sum)
          / (((exampleOptions.filter (fun q => q.autoHeight)).length : Nat) : ℚ) :=
  refresh_minHeight_iff exampleOptions 300 (by
    intro p hp
    simp only [exampleOptions, List.mem_cons, List.mem_singleton, List.not_mem_nil, or_false] at hp
    rcases hp with rfl | rfl | rfl | rfl | rfl <;> norm_num)

/-- C7. `refresh` is idempotent: a second call with the same viewport height changes
nothing. -/
theorem refresh_idempotent (panels : List VPanel) (viewHeight : ℚ) :
    refresh (refresh panels viewHeight) viewHeight = refresh panels viewHeight := by
  rw [refresh_eq (refresh panels viewHeight), refresh_eq panels viewHeight]
  have hshare : autoShare (panels.map (fun p =>
        if p.autoHeight then p.setHeight (autoShare panels viewHeight) else p)) viewHeight
      = autoShare panels viewHeight := by
    unfold autoShare
    rw [usedHeight_map_auto, autoCount_map_auto]
  rw [hshare, List.map_map]
  apply List.map_congr_left
  intro p _
  by_cases ha : p.autoHeight = true
  · have : (p.setHeight (autoShare panels viewHeight)).autoHeight = true := ha
    simp [ha, this, VPanel.setHeight]
  · simp only [Bool.not_eq_true] at ha
    simp [ha]

/-! ## Facts that hold on every stack, well-indexed or not -/

theorem panelAt_some {panels : List VPanel} {i : Int} {c : Cursor}
    (h : panelAt panels i = some c) : panels[c.1]? = some c.2 := by
  unfold panelAt at h
  split_ifs at h
  cases hp : panels[i.toNat]? with
  | none => simp [hp] at h
  | some p =>
    simp only [hp, Option.map_some', Option.some.injEq] at h
    subst h
    exact hp

theorem forward_some {panels : List VPanel} {dir : Bool} {cursor c : Cursor}
    (h : (if dir then nextPanel panels cursor else prevPanel panels cursor) = some c) :
    panels[c.1]? = some c.2 := by
  cases dir
  · exact panelAt_some (by simpa [prevPanel] using h)
  · exact panelAt_some (by simpa [nextPanel] using h)

theorem planOk_append {panels : List VPanel} {m : List (Nat × ℚ)} (hm : PlanOk panels m)
    {c : Cursor} (hc : panels[c.1]? = some c.2) (growth : ℚ) :
    PlanOk panels (m ++ [(c.1, (c.2.getResizeInfoByGrowth growth).1)]) := by
  intro pair hpair p hp
  rcases List.mem_append.mp hpair with h | h
  · exact hm pair h p hp
  · simp only [List.mem_singleton] at h
    subst h
    simp only [hc, Option.some.injEq] at hp
    subst hp
    simp [VPanel.getResizeInfoByGrowth]

theorem resizeLoop_planOk (panels : List VPanel) (toDown : Bool) :
    ∀ (fuel : Nat) (cursor : Cursor) (r : ℚ) (m result : List (Nat × ℚ)),
      PlanOk panels m → resizeLoop panels toDown fuel cursor r m = .ok result →
      PlanOk panels result := by
  intro fuel
  induction fuel with
  | zero => intro cursor r m result _ h; simp [resizeLoop] at h
  | succ f ih =>
    intro cursor r m result hm h
    simp only [resizeLoop] at h
    cases hstep : (if toDown then nextPanel panels cursor else prevPanel panels cursor) with
    | none =>
      simp only [hstep, Except.ok.injEq] at h
      subst h
      exact hm
    | some c =>
      simp only [hstep] at h
      have hc := forward_some hstep
      split_ifs at h
      · exact ih c r m result hm h
      · simp only [Except.ok.injEq] at h
        subst h
        exact planOk_append hm hc _
      · exact ih c _ _ result (planOk_append hm hc _) h

theorem setHeightAt_map_minHeight (l : List VPanel) (k : Nat) (v : ℚ) :
    (setHeightAt l k v).map VPanel.minHeight = l.map VPanel.minHeight := by
  unfold setHeightAt
  cases hp : l[k]? with
  | none => rfl
  | some p =>
    simp only [List.map_set]
    apply List.ext_getElem?
    intro i
    rw [List.getElem?_set]
    split_ifs with h1 h2
    · subst h1
      simp [hp, VPanel.setHeight]
    · subst h1
      simp only [List.length_map, not_lt] at h2
      simp [List.getElem?_eq_none h2]
    · rfl

theorem setHeightAt_minRespected {l : List VPanel} (hl : MinRespected l) (k : Nat) {v : ℚ}
    (hv : ∀ p, l[k]? = some p → p.minHeight ≤ v) : MinRespected (setHeightAt l k v) := by
  unfold setHeightAt
  cases hp : l[k]? with
  | none => exact hl
  | some p =>
    intro q hq
    rcases List.mem_or_eq_of_mem_set hq with h | h
    · exact hl q h
    · subst h
      exact hv p hp

theorem applyResizeMap_minRespected (panels : List VPanel) :
    ∀ (m : List (Nat × ℚ)) (acc : List VPanel),
      acc.map VPanel.minHeight = panels.map VPanel.minHeight → MinRespected acc →
      PlanOk panels m → MinRespected (applyResizeMap acc m) := by
  intro m
  induction m with
  | nil => intro acc _ hacc _; exact hacc
  | cons pair rest ih =>
    intro acc hmap hacc hm
    rw [applyResizeMap_cons]
    refine ih _ ((setHeightAt_map_minHeight acc _ _).trans hmap) ?_
      (fun x hx => hm x (List.mem_cons_of_mem _ hx))
    refine setHeightAt_minRespected hacc _ ?_
    intro p hp
    have h1 : (acc.map VPanel.minHeight)[pair.1]? = some p.minHeight := by
      simp [hp]
    rw [hmap, List.getElem?_map] at h1
    cases hq : panels[pair.1]? with
    | none => simp [hq] at h1
    | some q =>
      simp only [hq, Option.map_some', Option.some.injEq] at h1
      rw [← h1]
      exact hm pair (List.mem_cons_self _ _) q hq

theorem resize_tail_minRespected {panels panels' : List VPanel} {toDown : Bool} {fuel : Nat}
    {cursor : Cursor} {d : ℚ} (hmin : MinRespected panels) (hc : panels[cursor.1]? = some cursor.2)
    (h : (match resizeLoop panels toDown fuel cursor d
            [(cursor.1, (cursor.2.getResizeInfoByGrowth d).1)] with
          | .error e => .error e
          | .ok resizeMap => .ok (applyResizeMap panels resizeMap))
        = (.ok panels' : Except Err (List VPanel))) :
    MinRespected panels' := by
  cases hloop : resizeLoop panels toDown fuel cursor d
      [(cursor.1, (cursor.2.getResizeInfoByGrowth d).1)] with
  | error e => simp [hloop] at h
  | ok m =>
    simp only [hloop, Except.ok.injEq] at h
    subst h
    have h0 : PlanOk panels [(cursor.1, (cursor.2.getResizeInfoByGrowth d).1)] :=
      planOk_append (m := []) (fun _ hx => by simp at hx) hc _
    exact applyResizeMap_minRespected panels m panels rfl hmin
      (resizeLoop_planOk panels _ fuel cursor _ _ m h0 hloop)

/-- Whenever `_resize` returns, minimum heights that were respected still are. -/
theorem resize_minRespected {panels panels' : List VPanel} {s fuel : Nat} {startY mouseY : ℚ}
    (hmin : MinRespected panels) (h : _resize fuel panels s startY mouseY = .ok panels') :
    MinRespected panels' := by
  unfold _resize at h
  cases hs : panels[s]? with
  | none => simp [hs] at h
  | some spl =>
    simp only [hs] at h
    by_cases hd : mouseY > startY
    · simp only [hd, decide_True, if_true] at h
      cases hstep : prevPanel panels (s, spl) with
      | none => simp [hstep] at h
      | some cursor =>
        simp only [hstep] at h
        exact resize_tail_minRespected hmin (panelAt_some hstep) h
    · simp only [hd, decide_False, if_false, Bool.false_eq_true] at h
      cases hstep : nextPanel panels (s, spl) with
      | none => simp [hstep] at h
      | some cursor =>
        simp only [hstep] at h
        exact resize_tail_minRespected hmin (panelAt_some hstep) h

/-- Whenever a reserve loop returns, it returns at least what it started from, provided
no panel has a negative reserve. -/
theorem reserveLoop_ge (panels : List VPanel) (down : Bool)
    (hnonneg : ∀ p ∈ panels, 0 ≤ reserveOf p) :
    ∀ (fuel : Nat) (cursor : Cursor) (acc result : ℚ),
      reserveLoop panels down fuel cursor acc = .ok result → acc ≤ result := by
  intro fuel
  induction fuel with
  | zero => intro cursor acc result h; simp [reserveLoop] at h
  | succ f ih =>
    intro cursor acc result h
    simp only [reserveLoop] at h
    cases hstep : (if down then nextPanel panels cursor else prevPanel panels cursor) with
    | none =>
      simp only [hstep, Except.ok.injEq] at h
      exact le_of_eq h
    | some c =>
      simp only [hstep] at h
      have hc := hnonneg c.2 (List.getElem?_mem (forward_some hstep))
      have := ih c _ result h
      linarith

/-! ## Claims about a drag gesture -/

/-- On a well-indexed stack `_resize` returns when the dragged panel has a neighbour on
the growing side and the fuel covers the stack. -/
theorem resize_returns {panels : List VPanel} {s : Nat} (hw : WellIndexed panels)
    {startY mouseY : ℚ} (hdown : mouseY > startY → 0 < s ∧ s < panels.length)
    (hup : ¬ mouseY > startY → s + 1 < panels.length) {fuel : Nat}
    (hf : panels.length ≤ fuel) :
    ∃ panels', _resize fuel panels s startY mouseY = .ok panels' := by
  by_cases hdir : mouseY > startY
  · obtain ⟨h0, h1⟩ := hdown hdir
    obtain ⟨k, rfl⟩ : ∃ k, s = k + 1 := ⟨s - 1, by omega⟩
    have hg : panels[k]? = some panels[k] := List.getElem?_eq_getElem (by omega)
    have hs : panels[k + 1]? = some panels[k + 1] := List.getElem?_eq_getElem h1
    have := resize_down hw (split_two hg hs) hf hdir
    rw [length_take_of_getElem? hg] at this
    exact ⟨_, this⟩
  · have h1 := hup hdir
    have hs : panels[s]? = some panels[s] := List.getElem?_eq_getElem (by omega)
    have hg : panels[s + 1]? = some panels[s + 1] := List.getElem?_eq_getElem h1
    have := resize_up hw (split_two hs hg) hf hdir
    rw [length_take_of_getElem? hs] at this
    exact ⟨_, this⟩

/-- A release on a settled stack: `_onDragEnd` returns, the heights still sum to the
viewport height, and the splitter's top edge is the clamped release position. -/
theorem dragEnd_settled {panels : List VPanel} {viewHeight : ℚ} {s : Nat} {spl : VPanel}
    (hw : WellIndexed panels) (hmin : MinRespected panels)
    (hsum : sumHeights panels = viewHeight)
    (hs : panels[s]? = some spl) (hspl : spl.isSplitter = true)
    (hbefore : 0 < s) (hafter : s + 1 < panels.length) {fuel : Nat} (hf : panels.length ≤ fuel)
    (splOffsetY pressY mouseY : ℚ) (hstart : pressY - splOffsetY = sumHeights (panels.take s)) :
    ∃ panels', _onDragEnd fuel panels ⟨s, splOffsetY, pressY - splOffsetY, 0,
          viewHeight - spl.height⟩ mouseY = .ok panels' ∧
      sumHeights panels' = viewHeight ∧
      sumHeights (panels'.take s)
        = releaseY ⟨s, splOffsetY, pressY - splOffsetY, 0, viewHeight - spl.height⟩
            (((panels.take s).map reserveOf).sum, ((panels.drop (s + 1)).map reserveOf).sum)
            mouseY ∧
      0 + ((panels.take s).map reserveOf).sum ≤ sumHeights (panels'.take s) ∧
      sumHeights (panels'.take s)
        ≤ viewHeight - spl.height - ((panels.drop (s + 1)).map reserveOf).sum := by
  subst hsum
  have hne := release_interval_nonempty hmin hs
  have hb := limit_bounds (mouseY - splOffsetY) hne
  rw [onDragEnd_eq ⟨s, splOffsetY, pressY - splOffsetY, 0, sumHeights panels - spl.height⟩
    hw hs hf]
  have hlo : ((panels.take s).map reserveOf).sum
      ≤ releaseY ⟨s, splOffsetY, pressY - splOffsetY, 0, sumHeights panels - spl.height⟩
          (((panels.take s).map reserveOf).sum, ((panels.drop (s + 1)).map reserveOf).sum)
          mouseY := by
    have := hb.1
    simpa [releaseY] using this
  have hhi : releaseY ⟨s, splOffsetY, pressY - splOffsetY, 0, sumHeights panels - spl.height⟩
          (((panels.take s).map reserveOf).sum, ((panels.drop (s + 1)).map reserveOf).sum)
          mouseY
      ≤ sumHeights panels - spl.height - ((panels.drop (s + 1)).map reserveOf).sum := hb.2
  obtain ⟨panels', hres, h1, h2⟩ := resize_within_reserve hw hmin hs hspl
    (fun _ => hbefore) (fun _ => hafter) hf hstart hlo hhi
  refine ⟨panels', hres, h1, h2, ?_, ?_⟩
  · rw [h2, zero_add]; exact hlo
  · rw [h2]; exact hhi

/-- C2. A drag gesture on a settled stack keeps the sum of the heights: when the heights
sum to the viewport height, every panel respects its minimum height and carries its
position as index, the dragged splitter has a panel before and after it and the drag
starts at the splitter's top edge, `_onDragEnd` returns a stack whose heights still sum
to the viewport height, wherever the pointer is released. -/
theorem dragEnd_preserves_height_sum (panels : List VPanel) (viewHeight : ℚ) (s : Nat)
    (spl : VPanel) (splOffsetY pressY mouseY : ℚ) (fuel : Nat) (dragData : DragData)
    (hw : WellIndexed panels) (hmin : MinRespected panels)
    (hsum : sumHeights panels = viewHeight)
    (hs : panels[s]? = some spl) (hspl : spl.isSplitter = true)
    (hbefore : 0 < s) (hafter : s + 1 < panels.length)
    (hdrag : _onDragStart panels viewHeight s splOffsetY pressY = .ok dragData)
    (hstart : dragData.startY = sumHeights (panels.take s))
    (hf : panels.length ≤ fuel) :
    ∃ panels', _onDragEnd fuel panels dragData mouseY = .ok panels' ∧
      sumHeights panels' = viewHeight := by
  rw [onDragStart_eq hs] at hdrag
  obtain rfl := Except.ok.inj hdrag
  obtain ⟨panels', h1, h2, -⟩ := dragEnd_settled hw hmin hsum hs hspl hbefore hafter hf
    splOffsetY pressY mouseY hstart
  exact ⟨panels', h1, h2⟩

/-- Witness for C2: the example stack in its viewport of height 300, second splitter
pressed 4 below its top edge at 190 and released far below the container. -/
theorem dragEnd_preserves_height_sum_witness :
    ∃ panels', _onDragEnd 5 exampleStack ⟨3, 4, 190, 0, 290⟩ 1000 = .ok panels' ∧
      sumHeights panels' = 300 :=
  dragEnd_preserves_height_sum exampleStack 300 3 ⟨3, 0, 10, true, false⟩ 4 194 1000 5
    ⟨3, 4, 190, 0, 290⟩ (by decide) exampleStack_minRespected
    (by norm_num [sumHeights, exampleStack, VPanel.getHeight]) (by decide) (by decide)
    (by decide) (by decide)
    (by norm_num [_onDragStart, exampleStack, VPanel.getHeight])
    (by norm_num [sumHeights, exampleStack, VPanel.getHeight]) (by decide)

/-- C3. `_resize` keeps every panel at or above its minimum height: on a stack that
respects the minimum heights, whatever `_resize` returns respects them too, for every
start and release position; and it does return when the panels carry their positions as
index, the dragged panel has a neighbour on the growing side and the fuel covers the
stack. -/
theorem resize_preserves_minHeight (panels : List VPanel) (s : Nat) (startY mouseY : ℚ)
    (fuel : Nat) (hmin : MinRespected panels) :
    (∀ panels', _resize fuel panels s startY mouseY = .ok panels' → MinRespected panels') ∧
    (WellIndexed panels → (mouseY > startY → 0 < s ∧ s < panels.length) →
      (¬ mouseY > startY → s + 1 < panels.length) → panels.length ≤ fuel →
      ∃ panels', _resize fuel panels s startY mouseY = .ok panels') :=
  ⟨fun _ h => resize_minRespected hmin h, fun hw hdown hup hf => resize_returns hw hdown hup hf⟩

/-- Witness for C3: the example stack, first splitter dragged down from 80 to 170. -/
theorem resize_preserves_minHeight_witness :
    MinRespected exampleStack ∧
      ∃ panels', _resize 5 exampleStack 1 80 170 = .ok panels' ∧ MinRespected panels' := by
  have t := resize_preserves_minHeight exampleStack 1 80 170 5 exampleStack_minRespected
  obtain ⟨panels', h⟩ := t.2 (by decide) (by intro _; decide)
    (by intro h; exact absurd (by norm_num) h) (by decide)
  exact ⟨exampleStack_minRespected, panels', h, t.1 panels' h⟩

/-- C8. Reserves and release clamp: on a stack whose panels carry their positions as
index, `_getMouseYAdditionalLimit` for the panel at position `s` returns the sum over the
positions before `s` and the sum over the positions after `s` of the panel's height if it
is a splitter and its `minHeight` otherwise; and `_onDragEnd` calls `_resize` with the
pointer position minus `splOffsetY`, limited to `[minY + reserveBefore, maxY - reserveAfter]`. -/
theorem reserve_and_release_clamp (panels : List VPanel) (s : Nat) (spl : VPanel) (fuel : Nat)
    (dragData : DragData) (mouseY : ℚ)
    (hw : WellIndexed panels) (hs : panels[s]? = some spl) (hd : dragData.splPanel = s)
    (hf : panels.length ≤ fuel) :
    _getMouseYAdditionalLimit fuel panels s
        = .ok (((panels.take s).map
                  (fun p => if p.isSplitter then p.height else p.minHeight)).sum,
               ((panels.drop (s + 1)).map
                  (fun p => if p.isSplitter then p.height else p.minHeight)).sum) ∧
      _onDragEnd fuel panels dragData mouseY
        = _resize fuel panels s dragData.startY
            (limit (mouseY - dragData.splOffsetY)
              (dragData.minY + ((panels.take s).map
                  (fun p => if p.isSplitter then p.height else p.minHeight)).sum)
              (dragData.maxY - ((panels.drop (s + 1)).map
                  (fun p => if p.isSplitter then p.height else p.minHeight)).sum)) := by
  subst hd
  exact ⟨getMouseYAdditionalLimit_eq hw hs hf, onDragEnd_eq dragData hw hs hf mouseY⟩

/-- Witness for C8: the example stack and its second splitter. -/
theorem reserve_and_release_clamp_witness :
    _getMouseYAdditionalLimit 5 exampleStack 3
        = .ok (((exampleStack.take 3).map
                  (fun p => if p.isSplitter then p.height else p.minHeight)).sum,
               ((exampleStack.drop (3 + 1)).map
                  (fun p => if p.isSplitter then p.height else p.minHeight)).sum) ∧
      _onDragEnd 5 exampleStack ⟨3, 4, 190, 0, 290⟩ 1000
        = _resize 5 exampleStack 3 (190 : ℚ)
            (limit ((1000 : ℚ) - 4)
              (0 + ((exampleStack.take 3).map
                  (fun p => if p.isSplitter then p.height else p.minHeight)).sum)
              (290 - ((exampleStack.drop (3 + 1)).map
                  (fun p => if p.isSplitter then p.height else p.minHeight)).sum)) :=
  reserve_and_release_clamp exampleStack 3 ⟨3, 0, 10, true, false⟩ 5 ⟨3, 4, 190, 0, 290⟩ 1000
    (by decide) (by decide) rfl (by decide)

/-- C9. The committed position is the clamped release position: on a settled stack (as in
C2), after `_onDragEnd` the splitter's top edge, the sum of the new heights of the panels
before it, equals the release position limited to the reserve interval, and so lies
between `0 + reserveBefore` and `viewHeight - splitterHeight - reserveAfter`. -/
theorem dragEnd_top_edge (panels : List VPanel) (viewHeight : ℚ) (s : Nat)
    (spl : VPanel) (splOffsetY pressY mouseY : ℚ) (fuel : Nat) (dragData : DragData)
    (hw : WellIndexed panels) (hmin : MinRespected panels)
    (hsum : sumHeights panels = viewHeight)
    (hs : panels[s]? = some spl) (hspl : spl.isSplitter = true)
    (hbefore : 0 < s) (hafter : s + 1 < panels.length)
    (hdrag : _onDragStart panels viewHeight s splOffsetY pressY = .ok dragData)
    (hstart : dragData.startY = sumHeights (panels.take s))
    (hf : panels.length ≤ fuel) :
    ∃ panels' asideMinMax,
      _getMouseYAdditionalLimit fuel panels s = .ok asideMinMax ∧
      _onDragEnd fuel panels dragData mouseY = .ok panels' ∧
      sumHeights (panels'.take s)
        = limit (mouseY - dragData.splOffsetY) (dragData.minY + asideMinMax.1)
            (dragData.maxY - asideMinMax.2) ∧
      0 + asideMinMax.1 ≤ sumHeights (panels'.take s) ∧
      sumHeights (panels'.take s) ≤ viewHeight - spl.height - asideMinMax.2 := by
  rw [onDragStart_eq hs] at hdrag
  obtain rfl := Except.ok.inj hdrag
  obtain ⟨panels', h1, -, h3, h4, h5⟩ := dragEnd_settled hw hmin hsum hs hspl hbefore hafter hf
    splOffsetY pressY mouseY hstart
  exact ⟨panels', _, getMouseYAdditionalLimit_eq hw hs hf, h1, h3, h4, h5⟩

/-- Witness for C9: viewport 200, a splitter of height 10 between two panels of
`minHeight` 20, released far below the container: the top edge ends in `[20, 170]`. -/
theorem dragEnd_top_edge_witness :
    ∃ panels', _onDragEnd 3 boundStack ⟨1, 3, 95, 0, 190⟩ 500 = .ok panels' ∧
      20 ≤ sumHeights (panels'.take 1) ∧ sumHeights (panels'.take 1) ≤ 170 := by
  obtain ⟨panels', a, ha, h1, -, h3, h4⟩ :=
    dragEnd_top_edge boundStack 200 1 ⟨1, 0, 10, true, false⟩ 3 98 500 3 ⟨1, 3, 95, 0, 190⟩
      (by decide) (by
        intro p hp
        simp only [boundStack, List.mem_cons, List.mem_singleton, List.not_mem_nil,
          or_false] at hp
        rcases hp with rfl | rfl | rfl <;> norm_num)
      (by norm_num [sumHeights, boundStack, VPanel.getHeight]) (by decide) (by decide)
      (by decide) (by decide)
      (by norm_num [_onDragStart, boundStack, VPanel.getHeight])
      (by norm_num [sumHeights, boundStack, VPanel.getHeight]) (by decide)
  have hw : WellIndexed boundStack := by decide
  have hs : boundStack[1]? = some ⟨1, 0, 10, true, false⟩ := by decide
  rw [getMouseYAdditionalLimit_eq hw hs (by decide)] at ha
  obtain rfl := Except.ok.inj ha
  refine ⟨panels', h1, ?_, ?_⟩
  · have e : (0 : ℚ) + ((boundStack.take 1).map reserveOf).sum = 20 := by
      norm_num [boundStack, reserveOf, VPanel.isSplitter]
    rw [← e]; exact h3
  · have e : (200 : ℚ) - (⟨1, 0, 10, true, false⟩ : VPanel).height
        - ((boundStack.drop (1 + 1)).map reserveOf).sum = 170 := by
      norm_num [boundStack, reserveOf, VPanel.isSplitter]
    rw [← e]; exact h4

theorem reserveOf_nonneg {panels : List VPanel}
    (h : ∀ p ∈ panels, 0 ≤ p.minHeight ∧ (p.isSplitter = true → 0 ≤ p.height)) :
    ∀ p ∈ panels, 0 ≤ reserveOf p := by
  intro p hp
  unfold reserveOf
  split_ifs with hs
  · exact (h p hp).2 hs
  · exact (h p hp).1

/-- C10. Monotonic clamp: when no `minHeight` and no splitter height is negative, the
release interval `[minY + reserveBefore, maxY - reserveAfter]` of `_onDragEnd` lies inside
the move interval `[minY, maxY]` of `_onDrag`, for whatever reserves
`_getMouseYAdditionalLimit` returns; and it does return them when the panels carry their
positions as index, the dragged panel is in the stack and the fuel covers the stack. -/
theorem release_clamp_within_move_clamp (panels : List VPanel) (dragData : DragData)
    (fuel : Nat)
    (hnonneg : ∀ p ∈ panels, 0 ≤ p.minHeight ∧ (p.isSplitter = true → 0 ≤ p.height)) :
    (∀ asideMinMax, _getMouseYAdditionalLimit fuel panels dragData.splPanel = .ok asideMinMax →
      dragData.minY ≤ dragData.minY + asideMinMax.1 ∧
      dragData.maxY - asideMinMax.2 ≤ dragData.maxY) ∧
    (WellIndexed panels → dragData.splPanel < panels.length → panels.length ≤ fuel →
      ∃ asideMinMax, _getMouseYAdditionalLimit fuel panels dragData.splPanel = .ok asideMinMax) := by
  constructor
  · intro a h
    unfold _getMouseYAdditionalLimit at h
    cases hs : panels[dragData.splPanel]? with
    | none => simp [hs] at h
    | some spl =>
      simp only [hs] at h
      cases hu : reserveLoop panels false fuel (dragData.splPanel, spl) 0 with
      | error e => simp [hu] at h
      | ok upper =>
        simp only [hu] at h
        cases hb : reserveLoop panels true fuel (dragData.splPanel, spl) 0 with
        | error e => simp [hb] at h
        | ok below =>
          simp only [hb, Except.ok.injEq] at h
          subst h
          have h1 := reserveLoop_ge panels false (reserveOf_nonneg hnonneg) fuel _ _ _ hu
          have h2 := reserveLoop_ge panels true (reserveOf_nonneg hnonneg) fuel _ _ _ hb
          constructor
          · show dragData.minY ≤ dragData.minY + upper
            linarith
          · show dragData.maxY - below ≤ dragData.maxY
            linarith
  · intro hw hlt hf
    exact ⟨_, getMouseYAdditionalLimit_eq hw (List.getElem?_eq_getElem hlt) hf⟩

/-- Witness for C10: the example stack and its second splitter. -/
theorem release_clamp_within_move_clamp_witness :
    ∃ asideMinMax, _getMouseYAdditionalLimit 5 exampleStack 3 = .ok asideMinMax ∧
      (0 : ℚ) ≤ 0 + asideMinMax.1 ∧ (290 : ℚ) - asideMinMax.2 ≤ 290 := by
  have t := release_clamp_within_move_clamp exampleStack ⟨3, 4, 190, 0, 290⟩ 5 (by
    intro p hp
    simp only [exampleStack, List.mem_cons, List.mem_singleton, List.not_mem_nil, or_false] at hp
    rcases hp with rfl | rfl | rfl | rfl | rfl <;> norm_num)
  obtain ⟨a, ha⟩ := t.2 (by decide) (by decide) (by decide)
  exact ⟨a, ha, t.1 a ha⟩

/-! ## The growing neighbour -/

theorem getElem?_after (l1 post : List VPanel) (p : VPanel) {k : Nat} (hk : l1.length = k) :
    (l1 ++ p :: post)[k]? = some p := by
  subst hk
  exact getElem?_mid l1 post p

/-- The growing neighbour after `_resize` on a well-indexed stack: the panel before the
splitter when dragging down, the panel after it otherwise, at the height its growth plan
returns. -/
theorem resize_neighbour {panels : List VPanel} {s : Nat} (hw : WellIndexed panels)
    {startY mouseY : ℚ} (hdown : mouseY > startY → 0 < s ∧ s < panels.length)
    (hup : ¬ mouseY > startY → s + 1 < panels.length) {fuel : Nat}
    (hf : panels.length ≤ fuel) {g : VPanel}
    (hg : panels[if mouseY > startY then s - 1 else s + 1]? = some g) :
    ∃ panels', _resize fuel panels s startY mouseY = .ok panels' ∧
      panels'[if mouseY > startY then s - 1 else s + 1]?
        = some (g.setHeight (max g.minHeight (g.height + |startY - mouseY|))) := by
  by_cases hdir : mouseY > startY
  · obtain ⟨h0, h1⟩ := hdown hdir
    obtain ⟨k, rfl⟩ : ∃ k, s = k + 1 := ⟨s - 1, by omega⟩
    simp only [hdir, if_true, Nat.add_sub_cancel] at hg ⊢
    have hs : panels[k + 1]? = some panels[k + 1] := List.getElem?_eq_getElem h1
    have := resize_down hw (split_two hg hs) hf hdir
    rw [length_take_of_getElem? hg] at this
    refine ⟨_, this, ?_⟩
    exact getElem?_after _ _ _ (length_take_of_getElem? hg)
  · have h1 := hup hdir
    simp only [hdir, if_false] at hg ⊢
    have hs : panels[s]? = some panels[s] := List.getElem?_eq_getElem (by omega)
    have := resize_up hw (split_two hs hg) hf hdir
    rw [length_take_of_getElem? hs] at this
    refine ⟨_, this, ?_⟩
    refine getElem?_after _ _ _ ?_
    simp [cascade_length, length_take_of_getElem? hs]

/-- Counterexample to C11: the auto-height panel of `lowStack` has height 10 and
`minHeight` 20; dragging the splitter below it down by 5 leaves it at 20, not at 15. -/
theorem resize_growth_floored :
    lowStack[1 - 1]? = some ⟨0, 20, 10, false, true⟩ ∧
      ∃ panels', _resize 5 lowStack 1 10 15 = .ok panels' ∧
        (panels'[1 - 1]?).map VPanel.getHeight = some 20 ∧
        (20 : ℚ) ≠ 10 + |(10 : ℚ) - 15| := by
  have hw : WellIndexed lowStack := by decide
  obtain ⟨panels', h1, h2⟩ := @resize_neighbour lowStack 1 hw 10 15 (fun _ => by decide)
    (fun h => absurd (by norm_num) h) 5 (by decide) ⟨0, 20, 10, false, true⟩
    (by norm_num [lowStack])
  refine ⟨by decide, panels', h1, ?_, by norm_num [abs_of_neg]⟩
  have e : (if (15 : ℚ) > 10 then 1 - 1 else 1 + 1) = 1 - 1 := by norm_num
  rw [e] at h2
  rw [h2]
  norm_num [VPanel.setHeight, VPanel.getHeight, abs_of_neg]

/-- C11, amended. On a stack whose panels carry their positions as index, `_resize` on a
splitter with a neighbour on the growing side leaves that neighbour (the panel before the
splitter when dragging down, the panel after it otherwise) at its old height plus the full
`|startY - mouseY|` whenever that sum is not below the neighbour's `minHeight`, whatever
the shrinking side absorbed. -/
theorem resize_grows_neighbour (panels : List VPanel) (s : Nat) (startY mouseY : ℚ)
    (fuel : Nat) (g : VPanel) (hw : WellIndexed panels)
    (hdown : mouseY > startY → 0 < s ∧ s < panels.length)
    (hup : ¬ mouseY > startY → s + 1 < panels.length) (hf : panels.length ≤ fuel)
    (hg : panels[if mouseY > startY then s - 1 else s + 1]? = some g)
    (hfloor : g.minHeight ≤ g.height + |startY - mouseY|) :
    ∃ panels', _resize fuel panels s startY mouseY = .ok panels' ∧
      panels'[if mouseY > startY then s - 1 else s + 1]?
        = some { g with height := g.height + |startY - mouseY| } := by
  obtain ⟨panels', h1, h2⟩ := resize_neighbour hw hdown hup hf hg
  refine ⟨panels', h1, ?_⟩
  rw [h2, max_eq_right hfloor]
  rfl

/-- Witness for C11, amended: the example stack, first splitter dragged down from 80 to
170; the panel above it grows from 80 to 170. -/
theorem resize_grows_neighbour_witness :
    ∃ panels', _resize 5 exampleStack 1 80 170 = .ok panels' ∧
      panels'[if (170 : ℚ) > 80 then 1 - 1 else 1 + 1]?
        = some { (⟨0, 20, 80, false, true⟩ : VPanel) with
                 height := (⟨0, 20, 80, false, true⟩ : VPanel).height + |(80 : ℚ) - 170| } :=
  resize_grows_neighbour exampleStack 1 80 170 5 ⟨0, 20, 80, false, true⟩ (by decide)
    (fun _ => by decide) (fun h => absurd (by norm_num) h) (by decide)
    (by norm_num [exampleStack]) (by norm_num [abs_of_neg])

/-! ## An exhausted shrinking side -/

theorem cascade_exhaust : ∀ (l : List VPanel) (r : ℚ), MinRespected l → capacity l ≤ r →
    ∀ q ∈ (cascade r l).filter (fun p => !p.isSplitter), q.height = q.minHeight := by
  intro l
  induction l with
  | nil => intro r _ _ q hq; simp [cascade] at hq
  | cons p rest ih =>
    intro r h hr q hq
    have hp : p.minHeight ≤ p.height := h p (List.mem_cons_self _ _)
    have hrest : MinRespected rest := fun x hx => h x (List.mem_cons_of_mem _ hx)
    have hcap := capacity_nonneg rest hrest
    have hrem := remaining_nonneg p r
    rw [capacity_cons] at hr
    simp only [cascade] at hq
    by_cases hs : p.isSplitter = true
    · simp only [hs, if_true, zero_add, List.filter_cons, Bool.not_true, Bool.false_eq_true,
        if_false] at hq hr
      exact ih r hrest hr q hq
    · simp only [hs, if_false, Bool.false_eq_true, hrem] at hq hr
      simp only [Bool.not_eq_true] at hs
      have hs2 : (p.setHeight (p.getResizeInfoByGrowth (-r)).1).isSplitter = false := hs
      simp only [List.filter_cons, hs2, Bool.not_false, if_true, List.mem_cons] at hq
      have hle : p.height + -r ≤ p.minHeight := by linarith
      rcases hq with rfl | hq
      · simp only [VPanel.setHeight, VPanel.getResizeInfoByGrowth, VPanel.getHeight]
        exact max_eq_left hle
      · refine ih _ hrest ?_ q hq
        simp only [VPanel.getResizeInfoByGrowth, VPanel.getHeight]
        rw [max_eq_left hle]
        linarith

theorem capacity_shrinkSide_down (panels : List VPanel) (s : Nat) :
    ((shrinkSide panels s true).map (fun q => q.height - q.minHeight)).sum
      = capacity (panels.drop (s + 1)) := by
  simp [shrinkSide, capacity]

theorem capacity_shrinkSide_up (panels : List VPanel) (s : Nat) :
    ((shrinkSide panels s false).map (fun q => q.height - q.minHeight)).sum
      = capacity (panels.take s).reverse := by
  simp [shrinkSide, capacity]

/-- Counterexample to C12: a splitter that is the first panel, dragged down by 90 over a
shrinking side of capacity 80: `_resize` dereferences the missing panel before it. -/
theorem resize_exhausted_no_neighbour :
    MinRespected splitterFirstStack ∧
      splitterFirstStack[0]? = some ⟨0, 0, 10, true, false⟩ ∧
      ((shrinkSide splitterFirstStack 0 (decide ((90 : ℚ) > 0))).map
          (fun q => q.height - q.minHeight)).sum < |(0 : ℚ) - 90| ∧
      _resize 2 splitterFirstStack 0 0 90 = .error .typeError := by
  refine ⟨?_, by decide, ?_, ?_⟩
  · intro p hp
    simp only [splitterFirstStack, List.mem_cons, List.mem_singleton, List.not_mem_nil,
      or_false] at hp
    rcases hp with rfl | rfl <;> norm_num
  · norm_num [shrinkSide, splitterFirstStack, VPanel.isSplitter, abs_of_neg]
  · have hw : WellIndexed splitterFirstStack := by decide
    have hp := prevPanel_zero hw (p := ⟨0, 0, 10, true, false⟩) (by decide)
    unfold _resize
    have h0 : splitterFirstStack[0]? = some ⟨0, 0, 10, true, false⟩ := by decide
    simp only [h0]
    norm_num [hp]

/-- C12, amended. Soft-fail when the shrinking side is exhausted: on a stack whose panels
carry their positions as index and respect their minimum heights, a call of `_resize` on
a splitter that has a neighbour on the growing side, with an amount `d = |startY - mouseY|`
above the shrink capacity `C` of the shrinking side, returns without error, leaves every
non-splitter panel of the shrinking side exactly at its `minHeight`, grows the growing
neighbour by `d`, and so raises the sum of all heights by `d - C`. -/
theorem resize_soft_fail (panels : List VPanel) (s : Nat) (spl : VPanel)
    (startY mouseY : ℚ) (fuel : Nat)
    (hw : WellIndexed panels) (hmin : MinRespected panels)
    (hs : panels[s]? = some spl) (hspl : spl.isSplitter = true)
    (hdown : mouseY > startY → 0 < s) (hup : ¬ mouseY > startY → s + 1 < panels.length)
    (hf : panels.length ≤ fuel)
    (hexceed : ((shrinkSide panels s (decide (mouseY > startY))).map
        (fun q => q.height - q.minHeight)).sum < |startY - mouseY|) :
    ∃ panels' g, _resize fuel panels s startY mouseY = .ok panels' ∧
      (∀ q ∈ shrinkSide panels' s (decide (mouseY > startY)), q.height = q.minHeight) ∧
      panels[if mouseY > startY then s - 1 else s + 1]? = some g ∧
      panels'[if mouseY > startY then s - 1 else s + 1]?
        = some { g with height := g.height + |startY - mouseY| } ∧
      sumHeights panels' = sumHeights panels + (|startY - mouseY|
        - ((shrinkSide panels s (decide (mouseY > startY))).map
            (fun q => q.height - q.minHeight)).sum) := by
  have hd0 : (0 : ℚ) ≤ |startY - mouseY| := abs_nonneg _
  by_cases hdir : mouseY > startY
  · obtain ⟨k, rfl⟩ : ∃ k, s = k + 1 := ⟨s - 1, by have := hdown hdir; omega⟩
    obtain ⟨g, hg⟩ : ∃ g, panels[k]? = some g := by
      obtain ⟨hk, -⟩ := List.getElem?_eq_some.mp hs
      exact ⟨panels[k], List.getElem?_eq_getElem (by omega)⟩
    simp only [hdir, decide_True, if_true, Nat.add_sub_cancel, capacity_shrinkSide_down]
      at hexceed ⊢
    have hres := resize_toDown hw hg hs hspl hf hdir
    have hlen := length_take_of_getElem? hg
    have hps := split_two hg hs
    have hminPost : MinRespected (panels.drop (k + 2)) :=
      hmin.sub (fun _ hp => List.mem_of_mem_drop hp)
    have hgmin : g.minHeight ≤ g.height := hmin g (List.getElem?_mem hg)
    have hcs := cascade_sum (panels.drop (k + 2)) |startY - mouseY| hminPost hd0
    rw [min_eq_right (le_of_lt hexceed)] at hcs
    have hsumAll : sumHeights panels
        = sumHeights (panels.take k)
          + (g.height + (spl.height + sumHeights (panels.drop (k + 2)))) := by
      conv_lhs => rw [hps]
      rw [sumHeights_append, sumHeights_cons, sumHeights_cons]
    refine ⟨_, g, hres, ?_, hg, ?_, ?_⟩
    · intro q hq
      simp only [shrinkSide, if_true] at hq
      rw [drop_mid_two _ _ _ _ hlen] at hq
      exact cascade_exhaust _ _ hminPost (le_of_lt hexceed) q hq
    · rw [getElem?_after _ _ _ hlen, grow_height g hgmin hd0]
      rfl
    · rw [sumHeights_append, sumHeights_cons, sumHeights_cons, hcs, hsumAll]
      simp only [VPanel.setHeight, grow_height g hgmin hd0]
      ring
  · have hlt := hup hdir
    obtain ⟨g, hg⟩ : ∃ g, panels[s + 1]? = some g :=
      ⟨panels[s + 1], List.getElem?_eq_getElem hlt⟩
    simp only [hdir, decide_False, if_false, capacity_shrinkSide_up] at hexceed ⊢
    have hres := resize_toUp hw hs hg hspl hf hdir
    have hlen := length_take_of_getElem? hs
    have hps := split_two hs hg
    have hminPre : MinRespected (panels.take s).reverse :=
      (hmin.sub (fun _ hp => List.mem_of_mem_take hp)).reverse
    have hgmin : g.minHeight ≤ g.height := hmin g (List.getElem?_mem hg)
    have hcs := cascade_sum (panels.take s).reverse |startY - mouseY| hminPre hd0
    rw [min_eq_right (le_of_lt hexceed), sumHeights_reverse] at hcs
    have hsumAll : sumHeights panels
        = sumHeights (panels.take s)
          + (spl.height + (g.height + sumHeights (panels.drop (s + 2)))) := by
      conv_lhs => rw [hps]
      rw [sumHeights_append, sumHeights_cons, sumHeights_cons]
    have hlen2 : ((cascade |startY - mouseY| (panels.take s).reverse).reverse).length = s := by
      simp [cascade_length, hlen]
    refine ⟨_, g, hres, ?_, hg, ?_, ?_⟩
    · intro q hq
      simp only [shrinkSide, Bool.false_eq_true, if_false] at hq
      rw [List.take_left' hlen2, List.reverse_reverse] at hq
      exact cascade_exhaust _ _ hminPre (le_of_lt hexceed) q hq
    · have e : (cascade |startY - mouseY| (panels.take s).reverse).reverse
            ++ spl :: g.setHeight (g.getResizeInfoByGrowth |startY - mouseY|).1
              :: panels.drop (s + 2)
          = ((cascade |startY - mouseY| (panels.take s).reverse).reverse ++ [spl])
            ++ g.setHeight (g.getResizeInfoByGrowth |startY - mouseY|).1
              :: panels.drop (s + 2) := by simp
      rw [e, getElem?_after _ _ _ (by simp [hlen2]), grow_height g hgmin hd0]
      rfl
    · rw [sumHeights_append, sumHeights_reverse, sumHeights_cons, sumHeights_cons, hcs,
        hsumAll]
      simp only [VPanel.setHeight, grow_height g hgmin hd0]
      ring

/-- Witness for C12, amended: the example stack, second splitter dragged down from 190 by
90, ten more than the panel below it can give. -/
theorem resize_soft_fail_witness :
    ∃ panels' g, _resize 5 exampleStack 3 190 280 = .ok panels' ∧
      (∀ q ∈ shrinkSide panels' 3 (decide ((280 : ℚ) > 190)), q.height = q.minHeight) ∧
      exampleStack[if (280 : ℚ) > 190 then 3 - 1 else 3 + 1]? = some g ∧
      panels'[if (280 : ℚ) > 190 then 3 - 1 else 3 + 1]?
        = some { g with height := g.height + |(190 : ℚ) - 280| } ∧
      sumHeights panels' = sumHeights exampleStack + (|(190 : ℚ) - 280|
        - ((shrinkSide exampleStack 3 (decide ((280 : ℚ) > 190))).map
            (fun q => q.height - q.minHeight)).sum) :=
  resize_soft_fail exampleStack 3 ⟨3, 0, 10, true, false⟩ 190 280 5 (by decide)
    exampleStack_minRespected (by decide) (by decide) (fun _ => by decide)
    (fun h => absurd (by norm_num) h) (by decide)
    (by norm_num [shrinkSide, exampleStack, VPanel.isSplitter, abs_of_neg])

/-! ## Splitters, missing neighbours, termination, zero-length drags -/

/-- C16. `refresh` on a stack without auto-height panels changes nothing, whatever the
viewport height; the model of `refresh` is a total function, so no error is raised. -/
theorem refresh_no_auto (panels : List VPanel) (viewHeight : ℚ)
    (hnone : ∀ p ∈ panels, p.autoHeight = false) :
    refresh panels viewHeight = panels := by
  rw [refresh_eq]
  conv_rhs => rw [← List.map_id panels]
  apply List.map_congr_left
  intro p hp
  simp [hnone p hp]

/-- Witness for C16: two fixed panels around a splitter, 200 high in total, in a viewport
of height 500. -/
theorem refresh_no_auto_witness : refresh boundStack 500 = boundStack :=
  refresh_no_auto boundStack 500 (by
    intro p hp
    simp only [boundStack, List.mem_cons, List.mem_singleton, List.not_mem_nil, or_false] at hp
    rcases hp with rfl | rfl | rfl <;> rfl)

/-- C17. On a stack whose panels carry their positions as index, `_resize` on a panel of
the stack fails on a missing neighbour exactly when the drag is downward and the panel is
the first one, or the drag is not downward and the panel is the last one; in every other
case it returns a stack. In particular a zero-length drag on the last panel fails. -/
theorem resize_typeError_iff (panels : List VPanel) (s : Nat) (startY mouseY : ℚ)
    (fuel : Nat) (hw : WellIndexed panels) (hs : s < panels.length)
    (hf : panels.length ≤ fuel) :
    (_resize fuel panels s startY mouseY = .error .typeError ↔
        (mouseY > startY ∧ s = 0) ∨ (¬ mouseY > startY ∧ s + 1 = panels.length)) ∧
      (¬ ((mouseY > startY ∧ s = 0) ∨ (¬ mouseY > startY ∧ s + 1 = panels.length)) →
        ∃ panels', _resize fuel panels s startY mouseY = .ok panels') ∧
      (s + 1 = panels.length → _resize fuel panels s startY startY = .error .typeError) := by
  have hsp : panels[s]? = some panels[s] := List.getElem?_eq_getElem hs
  have hfail : ∀ y0 y1 : ℚ, (y1 > y0 ∧ s = 0) ∨ (¬ y1 > y0 ∧ s + 1 = panels.length) →
      _resize fuel panels s y0 y1 = .error .typeError := by
    intro y0 y1 h
    unfold _resize
    simp only [hsp]
    rcases h with ⟨hd, h0⟩ | ⟨hd, hl⟩
    · subst h0
      simp [hd, prevPanel_zero hw hsp]
    · have hnone : panels[s + 1]? = none := List.getElem?_eq_none (by omega)
      simp [hd, nextPanel_eq hw hsp, hnone]
  have hok : ¬ ((mouseY > startY ∧ s = 0) ∨ (¬ mouseY > startY ∧ s + 1 = panels.length)) →
      ∃ panels', _resize fuel panels s startY mouseY = .ok panels' := by
    intro h
    refine resize_returns hw (fun hd => ⟨?_, hs⟩) (fun hd => ?_) hf
    · rcases Nat.eq_zero_or_pos s with h0 | h0
      · exact absurd (Or.inl ⟨hd, h0⟩) h
      · exact h0
    · by_contra hlt
      exact h (Or.inr ⟨hd, by omega⟩)
  refine ⟨⟨fun herr => ?_, hfail startY mouseY⟩, hok, fun hl => ?_⟩
  · by_contra h
    obtain ⟨panels', hp⟩ := hok h
    rw [hp] at herr
    cases herr
  · exact hfail startY startY (Or.inr ⟨lt_irrefl _, hl⟩)

/-- Witness for C17: the example stack and its first splitter, dragged from 80 to 170. -/
theorem resize_typeError_iff_witness :
    (_resize 5 exampleStack 1 80 170 = .error .typeError ↔
        ((170 : ℚ) > 80 ∧ 1 = 0) ∨ (¬ (170 : ℚ) > 80 ∧ 1 + 1 = exampleStack.length)) ∧
      (¬ (((170 : ℚ) > 80 ∧ 1 = 0) ∨ (¬ (170 : ℚ) > 80 ∧ 1 + 1 = exampleStack.length)) →
        ∃ panels', _resize 5 exampleStack 1 80 170 = .ok panels') ∧
      (1 + 1 = exampleStack.length → _resize 5 exampleStack 1 80 80 = .error .typeError) :=
  resize_typeError_iff exampleStack 1 80 170 5 (by decide) (by decide) (by decide)

theorem cascade_zero : ∀ (l : List VPanel), MinRespected l → cascade 0 l = l := by
  intro l
  induction l with
  | nil => intro _; rfl
  | cons p rest ih =>
    intro h
    have hp : p.minHeight ≤ p.height := h p (List.mem_cons_self _ _)
    have hrest := ih (fun q hq => h q (List.mem_cons_of_mem _ hq))
    have hinfo : p.getResizeInfoByGrowth (-0) = (p.height, 0) := by
      simp [VPanel.getResizeInfoByGrowth, VPanel.getHeight, max_eq_right hp]
    simp only [cascade, hinfo, sub_zero, lt_irrefl, if_false, hrest]
    split_ifs
    · rfl
    · rfl

/-- C19. A zero-length drag changes nothing: on a stack whose panels carry their positions
as index and respect their minimum heights, `_resize` on a splitter that has a next panel,
with equal start and release positions, returns the stack as it was. -/
theorem resize_zero_drag (panels : List VPanel) (s : Nat) (spl : VPanel) (y : ℚ) (fuel : Nat)
    (hw : WellIndexed panels) (hmin : MinRespected panels)
    (hs : panels[s]? = some spl) (hspl : spl.isSplitter = true)
    (hnext : s + 1 < panels.length) (hf : panels.length ≤ fuel) :
    _resize fuel panels s y y = .ok panels := by
  obtain ⟨g, hg⟩ : ∃ g, panels[s + 1]? = some g :=
    ⟨panels[s + 1], List.getElem?_eq_getElem hnext⟩
  have hres := resize_toUp hw hs hg hspl hf (lt_irrefl y)
  have hminPre : MinRespected (panels.take s).reverse :=
    (hmin.sub (fun _ hp => List.mem_of_mem_take hp)).reverse
  have hgmin : g.minHeight ≤ g.height := hmin g (List.getElem?_mem hg)
  rw [hres]
  simp only [sub_self, abs_zero, cascade_zero _ hminPre, List.reverse_reverse,
    grow_height g hgmin (le_refl (0 : ℚ)), add_zero]
  have hgg : g.setHeight g.height = g := rfl
  rw [hgg, ← split_two hs hg]

/-- Witness for C19: the example stack, first splitter pressed and released at 80. -/
theorem resize_zero_drag_witness : _resize 5 exampleStack 1 80 80 = .ok exampleStack :=
  resize_zero_drag exampleStack 1 ⟨1, 0, 10, true, false⟩ 80 5 (by decide)
    exampleStack_minRespected (by decide) (by decide) (by decide) (by decide)

/-- C18. The neighbour walks terminate: on a stack of `n` panels that carry their positions
as index, the walk by `nextPanel` from a panel at position `c` visits exactly the positions
`c + 1, ..., n - 1` in increasing order and the walk by `prevPanel` exactly
`c - 1, ..., 0` in decreasing order, each until the lookup leaves the stack; each takes at
most `n` evaluations of its loop condition, so the forward walk of `_resize` (which
passes over splitters without repeating a panel) and both walks of
`_getMouseYAdditionalLimit` return with fuel `n`. -/
theorem walks_terminate (panels : List VPanel) (c : Nat) (p : VPanel)
    (hw : WellIndexed panels) (hc : panels[c]? = some p) :
    ∃ down up : List Cursor,
      Chain (nextPanel panels) (c, p) down ∧ Chain (prevPanel panels) (c, p) up ∧
      down.map Prod.fst = List.range' (c + 1) (panels.length - (c + 1)) ∧
      up.map Prod.fst = (List.range c).reverse ∧
      (down.map Prod.fst).Pairwise (fun a b => a < b) ∧
      (up.map Prod.fst).Pairwise (fun a b => a > b) ∧
      down.length + 1 ≤ panels.length ∧ up.length + 1 ≤ panels.length ∧
      (∀ fuel r resizeMap, panels.length ≤ fuel →
        resizeLoop panels true fuel (c, p) r resizeMap = .ok (resizeMap ++ planPairs r down)) ∧
      (∀ fuel r resizeMap, panels.length ≤ fuel →
        resizeLoop panels false fuel (c, p) r resizeMap = .ok (resizeMap ++ planPairs r up)) ∧
      (∀ fuel acc, panels.length ≤ fuel →
        ∃ below, reserveLoop panels true fuel (c, p) acc = .ok below) ∧
      (∀ fuel acc, panels.length ≤ fuel →
        ∃ upper, reserveLoop panels false fuel (c, p) acc = .ok upper) := by
  have hps := split_at hc
  have hlen := length_take_of_getElem? hc
  have hclt : c < panels.length := (List.getElem?_eq_some.mp hc).1
  have hdn := chain_next hw _ _ _ hps
  have hup := chain_prev hw _ _ _ hps
  rw [hlen] at hdn hup
  have hdl : ((panels.drop (c + 1)).enumFrom (c + 1)).length + 1 ≤ panels.length := by
    simp only [List.enumFrom_length, List.length_drop]; omega
  have hul : ((panels.take c).enum.reverse).length + 1 ≤ panels.length := by
    simp only [List.length_reverse, List.enum_length, hlen]; omega
  have hdpos : ((panels.drop (c + 1)).enumFrom (c + 1)).map Prod.fst
      = List.range' (c + 1) (panels.length - (c + 1)) := by
    rw [List.enumFrom_map_fst, List.length_drop]
  have hupos : ((panels.take c).enum.reverse).map Prod.fst = (List.range c).reverse := by
    rw [List.map_reverse, List.enum_map_fst, hlen]
  refine ⟨_, _, hdn, hup, hdpos, hupos, ?_, ?_, hdl, hul, ?_, ?_, ?_, ?_⟩
  · rw [hdpos]
    exact List.pairwise_lt_range' _ _
  · rw [hupos, List.pairwise_reverse]
    exact List.pairwise_lt_range c
  · intro fuel r m hf
    exact resizeLoop_chain panels true _ fuel (c, p) r m (by simpa using hdn) (by omega)
  · intro fuel r m hf
    exact resizeLoop_chain panels false _ fuel (c, p) r m (by simpa using hup) (by omega)
  · intro fuel acc hf
    exact ⟨_, reserveLoop_chain panels true _ fuel (c, p) acc (by simpa using hdn) (by omega)⟩
  · intro fuel acc hf
    exact ⟨_, reserveLoop_chain panels false _ fuel (c, p) acc (by simpa using hup) (by omega)⟩

/-- Witness for C18: the example stack, walks from its first splitter. -/
theorem walks_terminate_witness :
    ∃ down up : List Cursor,
      Chain (nextPanel exampleStack) (1, ⟨1, 0, 10, true, false⟩) down ∧
      Chain (prevPanel exampleStack) (1, ⟨1, 0, 10, true, false⟩) up ∧
      down.map Prod.fst = List.range' (1 + 1) (exampleStack.length - (1 + 1)) ∧
      up.map Prod.fst = (List.range 1).reverse ∧
      (down.map Prod.fst).Pairwise (fun a b => a < b) ∧
      (up.map Prod.fst).Pairwise (fun a b => a > b) ∧
      down.length + 1 ≤ exampleStack.length ∧ up.length + 1 ≤ exampleStack.length ∧
      (∀ fuel r resizeMap, exampleStack.length ≤ fuel →
        resizeLoop exampleStack true fuel (1, ⟨1, 0, 10, true, false⟩) r resizeMap
          = .ok (resizeMap ++ planPairs r down)) ∧
      (∀ fuel r resizeMap, exampleStack.length ≤ fuel →
        resizeLoop exampleStack false fuel (1, ⟨1, 0, 10, true, false⟩) r resizeMap
          = .ok (resizeMap ++ planPairs r up)) ∧
      (∀ fuel acc, exampleStack.length ≤ fuel →
        ∃ below, reserveLoop exampleStack true fuel (1, ⟨1, 0, 10, true, false⟩) acc
          = .ok below) ∧
      (∀ fuel acc, exampleStack.length ≤ fuel →
        ∃ upper, reserveLoop exampleStack false fuel (1, ⟨1, 0, 10, true, false⟩) acc
          = .ok upper) :=
  walks_terminate exampleStack 1 ⟨1, 0, 10, true, false⟩ (by decide) (by decide)

/-! ## The cascade example -/

theorem refresh_exampleOptions : refresh exampleOptions 300 = exampleStack := by
  rw [refresh_eq]
  norm_num [exampleOptions, exampleStack, VPanel.setHeight, autoShare, usedHeight, autoCount]

theorem dragEnd_example_lower :
    _onDragStart exampleStack 300 3 4 194 = .ok ⟨3, 4, 190, 0, 290⟩ ∧
      _onDragEnd 5 exampleStack ⟨3, 4, 190, 0, 290⟩ 284
        = .ok [⟨0, 20, 80, false, true⟩, ⟨1, 0, 10, true, false⟩, ⟨2, 20, 180, false, false⟩,
               ⟨3, 0, 10, true, false⟩, ⟨4, 20, 20, false, false⟩] := by
  have hw : WellIndexed exampleStack := by decide
  have hs : exampleStack[3]? = some ⟨3, 0, 10, true, false⟩ := by decide
  refine ⟨?_, ?_⟩
  · rw [onDragStart_eq hs]
    norm_num
  · rw [onDragEnd_eq ⟨3, 4, 190, 0, 290⟩ hw hs (by decide)]
    have hY : releaseY ⟨3, 4, 190, 0, 290⟩
        (((exampleStack.take 3).map reserveOf).sum, ((exampleStack.drop (3 + 1)).map reserveOf).sum)
        284 = 270 := by
      norm_num [releaseY, limit, exampleStack, reserveOf, VPanel.isSplitter, VPanel.getHeight]
    rw [hY]
    have hg : exampleStack[2]? = some ⟨2, 20, 100, false, false⟩ := by decide
    rw [resize_toDown hw hg hs rfl (by decide) (by norm_num)]
    norm_num [cascade, exampleStack, VPanel.setHeight, VPanel.getResizeInfoByGrowth,
      VPanel.getHeight, VPanel.isSplitter, abs_of_neg]

theorem dragEnd_example_upper :
    _onDragStart exampleStack 300 1 4 84 = .ok ⟨1, 4, 80, 0, 290⟩ ∧
      _onDragEnd 5 exampleStack ⟨1, 4, 80, 0, 290⟩ 174
        = .ok [⟨0, 20, 170, false, true⟩, ⟨1, 0, 10, true, false⟩, ⟨2, 20, 20, false, false⟩,
               ⟨3, 0, 10, true, false⟩, ⟨4, 20, 90, false, false⟩] := by
  have hw : WellIndexed exampleStack := by decide
  have hs : exampleStack[1]? = some ⟨1, 0, 10, true, false⟩ := by decide
  refine ⟨?_, ?_⟩
  · rw [onDragStart_eq hs]
    norm_num
  · rw [onDragEnd_eq ⟨1, 4, 80, 0, 290⟩ hw hs (by decide)]
    have hY : releaseY ⟨1, 4, 80, 0, 290⟩
        (((exampleStack.take 1).map reserveOf).sum, ((exampleStack.drop (1 + 1)).map reserveOf).sum)
        174 = 170 := by
      norm_num [releaseY, limit, exampleStack, reserveOf, VPanel.isSplitter, VPanel.getHeight]
    rw [hY]
    have hg : exampleStack[0]? = some ⟨0, 20, 80, false, true⟩ := by decide
    rw [resize_toDown hw hg hs rfl (by decide) (by norm_num)]
    norm_num [cascade, exampleStack, VPanel.setHeight, VPanel.getResizeInfoByGrowth,
      VPanel.getHeight, VPanel.isSplitter, abs_of_neg]

/-- Counterexample to C13: after `refresh` the auto panel is 80 high, but dragging the
splitter between the second and third panel down by 90 (pressed 4 below its top edge at
190, released 90 lower) leaves the second panel at 180, not 20, and the third at 20, not
90. -/
theorem cascade_example_lower_splitter :
    refresh exampleOptions 300 = exampleStack ∧
      _onDragStart exampleStack 300 3 4 194 = .ok ⟨3, 4, 190, 0, 290⟩ ∧
      _onDragEnd 5 exampleStack ⟨3, 4, 190, 0, 290⟩ (194 + 90)
        = .ok [⟨0, 20, 80, false, true⟩, ⟨1, 0, 10, true, false⟩, ⟨2, 20, 180, false, false⟩,
               ⟨3, 0, 10, true, false⟩, ⟨4, 20, 20, false, false⟩] ∧
      (180 : ℚ) ≠ 20 ∧ (20 : ℚ) ≠ 90 := by
  have e : (194 : ℚ) + 90 = 284 := by norm_num
  rw [e]
  exact ⟨refresh_exampleOptions, dragEnd_example_lower.1, dragEnd_example_lower.2,
    by norm_num, by norm_num⟩

/-- C13, amended. With viewport height 300 and the example panels, `refresh` gives the
auto panel height 80. Dragging the splitter between the second and third panel down by 90
(drag start at its top edge, release 90 lower, through `_onDragEnd` and `_resize`) is
clamped to 80, grows the second panel to 180 and shrinks the third to its `minHeight` 20.
The cascade that ends with the second panel at 20 and the third at 90 is what the same
drag of the splitter between the first and second panel gives; the first panel grows to
170. -/
theorem cascade_example :
    refresh exampleOptions 300 = exampleStack ∧
      _onDragStart exampleStack 300 3 4 194 = .ok ⟨3, 4, 190, 0, 290⟩ ∧
      _onDragEnd 5 exampleStack ⟨3, 4, 190, 0, 290⟩ (194 + 90)
        = .ok [⟨0, 20, 80, false, true⟩, ⟨1, 0, 10, true, false⟩, ⟨2, 20, 180, false, false⟩,
               ⟨3, 0, 10, true, false⟩, ⟨4, 20, 20, false, false⟩] ∧
      _onDragStart exampleStack 300 1 4 84 = .ok ⟨1, 4, 80, 0, 290⟩ ∧
      _onDragEnd 5 exampleStack ⟨1, 4, 80, 0, 290⟩ (84 + 90)
        = .ok [⟨0, 20, 170, false, true⟩, ⟨1, 0, 10, true, false⟩, ⟨2, 20, 20, false, false⟩,
               ⟨3, 0, 10, true, false⟩, ⟨4, 20, 90, false, false⟩] := by
  have e1 : (194 : ℚ) + 90 = 284 := by norm_num
  have e2 : (84 : ℚ) + 90 = 174 := by norm_num
  rw [e1, e2]
  exact ⟨refresh_exampleOptions, dragEnd_example_lower.1, dragEnd_example_lower.2,
    dragEnd_example_upper.1, dragEnd_example_upper.2⟩

/-! ## Adjacent splitters -/

/-- C14, the failing input evaluated: in a stack with two adjacent splitters, dragging the
lower splitter down by 30 grows the upper splitter, its neighbour on the growing side,
from height 10 to height 40. -/
theorem resize_grows_adjacent_splitter :
    (adjacentSplitterStack[1]?).map VPanel.isSplitter = some true ∧
      (adjacentSplitterStack[1]?).map VPanel.getHeight = some 10 ∧
      _resize 4 adjacentSplitterStack 2 110 140
        = .ok [⟨0, 20, 100, false, false⟩, ⟨1, 0, 40, true, false⟩, ⟨2, 0, 10, true, false⟩,
               ⟨3, 20, 70, false, false⟩] := by
  have hw : WellIndexed adjacentSplitterStack := by decide
  have hg : adjacentSplitterStack[1]? = some ⟨1, 0, 10, true, false⟩ := by decide
  have hs : adjacentSplitterStack[1 + 1]? = some ⟨2, 0, 10, true, false⟩ := by decide
  refine ⟨by decide, by decide, ?_⟩
  rw [resize_toDown hw hg hs rfl (by decide) (by norm_num)]
  norm_num [cascade, adjacentSplitterStack, VPanel.setHeight, VPanel.getResizeInfoByGrowth,
    VPanel.getHeight, VPanel.isSplitter, abs_of_neg]

/-! ## Adding panels -/

theorem wellIndexed_iff (panels : List VPanel) :
    WellIndexed panels ↔ ∀ (i : Nat) (p : VPanel), panels[i]? = some p → p.index = (i : Int) := by
  constructor
  · intro hw i p h
    exact hw.index_eq h
  · intro h i
    exact h i _ (List.getElem?_eq_getElem i.2)

theorem addPanel_wellIndexed {panels : List VPanel} (hw : WellIndexed panels)
    {options : PanelOptions} (ho : options.index = none) :
    WellIndexed (addPanel panels options) := by
  rw [wellIndexed_iff] at hw ⊢
  intro i p h
  unfold addPanel at h
  rcases Nat.lt_or_ge i panels.length with hlt | hge
  · rw [List.getElem?_append_left hlt] at h
    exact hw i p h
  · rw [List.getElem?_append_right hge] at h
    rcases Nat.eq_zero_or_pos (i - panels.length) with h0 | hpos
    · rw [h0] at h
      simp only [List.getElem?_cons_zero, Option.some.injEq] at h
      subst h
      have : i = panels.length := by omega
      simp [VPanel.create, extendIndex, ho, this]
    · obtain ⟨j, hj⟩ : ∃ j, i - panels.length = j + 1 := ⟨i - panels.length - 1, by omega⟩
      rw [hj] at h
      simp at h

theorem addPanels_wellIndexed : ∀ (options : List PanelOptions) (panels : List VPanel),
    WellIndexed panels → (∀ o ∈ options, o.index = none) →
    WellIndexed (addPanels panels options) := by
  intro options
  induction options with
  | nil => intro panels hw _; exact hw
  | cons o rest ih =>
    intro panels hw ho
    exact ih _ (addPanel_wellIndexed hw (ho o (List.mem_cons_self _ _)))
      (fun x hx => ho x (List.mem_cons_of_mem _ hx))

theorem runAddCalls_wellIndexed : ∀ (calls : List AddCall) (panels : List VPanel),
    WellIndexed panels → (∀ call ∈ calls, ∀ o ∈ call.options, o.index = none) →
    WellIndexed (runAddCalls panels calls) := by
  intro calls
  induction calls with
  | nil => intro panels hw _; exact hw
  | cons call rest ih =>
    intro panels hw ho
    have hrest : ∀ c ∈ rest, ∀ o ∈ c.options, o.index = none :=
      fun c hc => ho c (List.mem_cons_of_mem _ hc)
    have hcall := ho call (List.mem_cons_self _ _)
    cases call with
    | one o =>
      exact ih _ (addPanel_wellIndexed hw (hcall o (by simp [AddCall.options]))) hrest
    | many os =>
      exact ih _ (addPanels_wellIndexed os panels hw (fun o h => hcall o h)) hrest

/-- Counterexample to C15: a first panel whose options carry `index: 1`, then a panel with
plain options. The first panel is stored at position 0 with index 1, and `nextPanel` of it
reads position 2, outside the stack, although a panel follows it at position 1. -/
theorem addPanel_index_overridden :
    runAddCalls [] [.one ⟨some 1, 0, 100, false, false⟩, .one ⟨none, 0, 100, false, false⟩]
        = [⟨1, 0, 100, false, false⟩, ⟨1, 0, 100, false, false⟩] ∧
      ¬ WellIndexed (runAddCalls []
          [.one ⟨some 1, 0, 100, false, false⟩, .one ⟨none, 0, 100, false, false⟩]) ∧
      nextPanel (runAddCalls []
          [.one ⟨some 1, 0, 100, false, false⟩, .one ⟨none, 0, 100, false, false⟩])
          (0, ⟨1, 0, 100, false, false⟩) = none := by
  have e : runAddCalls [] [.one ⟨some 1, 0, 100, false, false⟩, .one ⟨none, 0, 100, false, false⟩]
      = [⟨1, 0, 100, false, false⟩, ⟨1, 0, 100, false, false⟩] := by
    simp [runAddCalls, addPanel, extendIndex, VPanel.create]
  rw [e]
  exact ⟨rfl, by decide, by decide⟩

/-- C15, amended. When no options object carries an `index` of its own, then after any
sequence of `addPanel` / `addPanels` calls on a new layout the panel stored at position `i`
has index `i`, `nextPanel` of it is the panel at position `i + 1` and `prevPanel` of it the
panel at position `i - 1`, or no panel when that position is outside the stack. -/
theorem addPanel_index_is_position (calls : List AddCall)
    (hplain : ∀ call ∈ calls, ∀ o ∈ call.options, o.index = none) :
    WellIndexed (runAddCalls [] calls) ∧
      ∀ (i : Nat) (p : VPanel), (runAddCalls [] calls)[i]? = some p →
        p.index = (i : Int) ∧
        nextPanel (runAddCalls [] calls) (i, p)
          = ((runAddCalls [] calls)[i + 1]?).map (fun q => (i + 1, q)) ∧
        prevPanel (runAddCalls [] calls) (i, p)
          = if i = 0 then none
            else ((runAddCalls [] calls)[i - 1]?).map (fun q => (i - 1, q)) := by
  have hw : WellIndexed (runAddCalls [] calls) :=
    runAddCalls_wellIndexed calls [] (by decide) hplain
  refine ⟨hw, fun i p h => ⟨hw.index_eq h, nextPanel_eq hw h, ?_⟩⟩
  cases i with
  | zero => simpa using prevPanel_zero hw h
  | succ j => simpa using prevPanel_succ hw h

/-- Witness for C15, amended: the example stack built by one `addPanel` call and one
`addPanels` call. -/
theorem addPanel_index_is_position_witness :
    WellIndexed (runAddCalls [] [.one ⟨none, 20, 0, false, true⟩,
        .many [⟨none, 0, 10, true, false⟩, ⟨none, 20, 100, false, false⟩]]) ∧
      ∀ (i : Nat) (p : VPanel),
        (runAddCalls [] [.one ⟨none, 20, 0, false, true⟩,
          .many [⟨none, 0, 10, true, false⟩, ⟨none, 20, 100, false, false⟩]])[i]? = some p →
        p.index = (i : Int) ∧
        nextPanel (runAddCalls [] [.one ⟨none, 20, 0, false, true⟩,
            .many [⟨none, 0, 10, true, false⟩, ⟨none, 20, 100, false, false⟩]]) (i, p)
          = ((runAddCalls [] [.one ⟨none, 20, 0, false, true⟩,
              .many [⟨none, 0, 10, true, false⟩, ⟨none, 20, 100, false, false⟩]])[i + 1]?).map
              (fun q => (i + 1, q)) ∧
        prevPanel (runAddCalls [] [.one ⟨none, 20, 0, false, true⟩,
            .many [⟨none, 0, 10, true, false⟩, ⟨none, 20, 100, false, false⟩]]) (i, p)
          = if i = 0 then none
            else ((runAddCalls [] [.one ⟨none, 20, 0, false, true⟩,
              .many [⟨none, 0, 10, true, false⟩, ⟨none, 20, 100, false, false⟩]])[i - 1]?).map
              (fun q => (i - 1, q)) :=
  addPanel_index_is_position
    [.one ⟨none, 20, 0, false, true⟩,
     .many [⟨none, 0, 10, true, false⟩, ⟨none, 20, 100, false, false⟩]]
    (by
      intro call hc o ho
      simp only [List.mem_cons, List.mem_singleton, List.not_mem_nil, or_false] at hc
      rcases hc with rfl | rfl
      · simp only [AddCall.options, List.mem_singleton] at ho
        subst ho; rfl
      · simp only [AddCall.options, List.mem_cons, List.mem_singleton, List.not_mem_nil,
          or_false] at ho
        rcases ho with rfl | rfl <;> rfl)

end VLayout
